import Mathlib

/-
Verification development for the obsidian-pdf-plus repository (single source
bundle: settings tab, DOM utilities, BacklinkHighlighter).

The TypeScript source is shallowly embedded below.  JavaScript numbers that
arise from `parseInt` are modelled as `Option Int` (`none` = `NaN`); array
reads `a[i]` are modelled by `arrGet`, where a read of a missing element that
is then dereferenced raises a `TypeError` (modelled with `Except`).  DOM
elements are modelled as values carrying the fields the code touches
(`nodeType`, text content as a list of chunks, `className`,
`dataset.highlightColor`); CSS geometry, sibling insertion (`el.before`) and
the host's rendering are not touched by any claim and are not modelled.
-/

set_option maxHeartbeats 1000000

/-- A JavaScript integer value as produced by `parseInt`: `none` is `NaN`. -/
abbrev JsInt := Option Int

/-- JavaScript `<` on numbers: any comparison with `NaN` is `false`. -/
def jsLt (a b : JsInt) : Bool :=
  match a, b with
  | some x, some y => x < y
  | _, _ => false

/-- JavaScript `>` on numbers: any comparison with `NaN` is `false`. -/
def jsGt (a b : JsInt) : Bool :=
  match a, b with
  | some x, some y => x > y
  | _, _ => false

/-- JavaScript `===` on numbers: `NaN === NaN` is `false`. -/
def jsEqNum (a b : JsInt) : Bool :=
  match a, b with
  | some x, some y => x == y
  | _, _ => false

/-- JavaScript subtraction; `NaN` propagates. -/
def jsSub (a b : JsInt) : JsInt :=
  match a, b with
  | some x, some y => some (x - y)
  | _, _ => none

/-- JavaScript truthiness of a possibly-undefined string (`undefined` and `""`
are falsy). -/
def jsTruthyStr (s : Option String) : Bool :=
  match s with
  | some v => v != ""
  | none => false

/-- Array read `a[i]` with a JS index: `undefined` (`none`) for negative,
out-of-range or `NaN` indices. -/
def arrGet {α : Type} (l : List α) (i : JsInt) : Option α :=
  match i with
  | some n => if 0 ≤ n then l.get? n.toNat else none
  | none => none

/-- Array write `a[i] = v`; in the modelled code every write happens at an
index that was just read successfully, so only in-range writes occur. -/
def arrSet {α : Type} (l : List α) (i : JsInt) (v : α) : List α :=
  match i with
  | some n => if 0 ≤ n then l.set n.toNat v else l
  | none => l

/-- Whether a JS index denotes a real position of an array of length `len`. -/
def validIdx (len : Nat) (i : JsInt) : Bool :=
  match i with
  | some n => 0 ≤ n && n.toNat < len
  | none => false

theorem getElem?_isSome_eq {α : Type} (l : List α) (n : Nat) :
    l[n]?.isSome = decide (n < l.length) := by
  by_cases h : n < l.length
  · simp [List.getElem?_eq_getElem h, h]
  · rw [List.getElem?_eq_none (le_of_not_lt h)]
    simp [h]

theorem arrGet_isSome {α : Type} (l : List α) (i : JsInt) :
    (arrGet l i).isSome = validIdx l.length i := by
  cases i with
  | none => rfl
  | some n =>
    simp only [arrGet, validIdx]
    by_cases h : (0 : Int) ≤ n
    · rw [if_pos h, List.get?_eq_getElem?, getElem?_isSome_eq]
      simp [h]
    · rw [if_neg h]
      simp [h]

theorem arrSet_length {α : Type} (l : List α) (i : JsInt) (v : α) :
    (arrSet l i v).length = l.length := by
  cases i with
  | none => rfl
  | some n =>
    simp only [arrSet]
    by_cases h : (0 : Int) ≤ n <;> simp [h]

theorem arrGet_arrSet_ne {α : Type} (l : List α) (i j : JsInt) (v : α)
    (h : i ≠ j) : arrGet (arrSet l i v) j = arrGet l j := by
  cases i with
  | none => rfl
  | some n =>
    cases j with
    | none => simp [arrGet]
    | some m =>
      simp only [arrSet, arrGet]
      by_cases hn : (0 : Int) ≤ n
      · simp only [hn, if_true]
        by_cases hm : (0 : Int) ≤ m
        · simp only [hm, if_true]
          have hnm : n.toNat ≠ m.toNat := by
            intro hc
            exact h (congrArg some (by omega))
          rw [List.get?_eq_getElem?, List.get?_eq_getElem?, List.getElem?_set_ne hnm]
        · simp [hm]
      · simp [hn]

/-- Model of `parseInt` with no radix argument: skip whitespace, optional sign, then
either a `0x`/`0X` hexadecimal literal or a run of decimal digits; `NaN` if no
digit is found. -/
def jsParseIntCore (sign : Int) (digits : List Char) (base : Nat)
    (isDig : Char → Bool) (toVal : Char → Nat) : JsInt :=
  let run := digits.takeWhile isDig
  if run.isEmpty then none
  else some (sign * (run.foldl (fun acc c => acc * (base : Int) + (toVal c : Int)) 0))

def hexVal (c : Char) : Nat :=
  if c.isDigit then c.toNat - '0'.toNat
  else if 'a' ≤ c ∧ c ≤ 'f' then c.toNat - 'a'.toNat + 10
  else if 'A' ≤ c ∧ c ≤ 'F' then c.toNat - 'A'.toNat + 10
  else 0

def isHexDigitChar (c : Char) : Bool :=
  c.isDigit || ('a' ≤ c && c ≤ 'f') || ('A' ≤ c && c ≤ 'F')

/-- JavaScript `parseInt(s)` (radix 10, or 16 after a `0x`/`0X` prefix). -/
def jsParseInt (s : String) : JsInt :=
  let cs := s.toList.dropWhile Char.isWhitespace
  let (sign, cs) :=
    match cs with
    | '-' :: rest => ((-1 : Int), rest)
    | '+' :: rest => ((1 : Int), rest)
    | _ => ((1 : Int), cs)
  match cs with
  | '0' :: 'x' :: rest => jsParseIntCore sign rest 16 isHexDigitChar hexVal
  | '0' :: 'X' :: rest => jsParseIntCore sign rest 16 isHexDigitChar hexVal
  | _ => jsParseIntCore sign cs 10 Char.isDigit (fun c => c.toNat - '0'.toNat)

/-- Clamp a `substring` argument to `[0, len]`; `NaN` is coerced to `0`. -/
def substringArg (len : Nat) (v : JsInt) : Nat :=
  match v with
  | none => 0
  | some n => if n ≤ 0 then 0 else min n.toNat len

/-- JavaScript `s.substring(from, to_)`: arguments are clamped, swapped when
`from > to_`; an absent second argument (outer `none`) means the string end. -/
def jsSubstring (s : String) (from_ : JsInt) (to_ : Option JsInt) : String :=
  let f := substringArg s.length from_
  let t :=
    match to_ with
    | none => s.length
    | some v => substringArg s.length v
  let a := min f t
  let b := max f t
  String.mk ((s.toList.drop a).take (b - a))

/-- First-match lookup in an association list (`URLSearchParams.get`,
`Map.get`, record access). -/
def assocGet {α : Type} (m : List (String × α)) (k : String) : Option α :=
  (m.find? (fun kv => kv.1 == k)).map (fun kv => kv.2)

/-- Split a character list on a separator character (kept structural so that
it computes by kernel reduction). -/
def splitChars (sep : Char) : List Char → List (List Char)
  | [] => [[]]
  | c :: rest =>
    let r := splitChars sep rest
    if c == sep then [] :: r
    else
      match r with
      | [] => [[c]]
      | h :: t => (c :: h) :: t

/-- JavaScript `s.split(sep)` for a one-character separator
(`''.split(sep) = ['']`, like the JS original). -/
def jsSplitChar (sep : Char) (s : String) : List String :=
  (splitChars sep s.toList).map String.mk

/-- Model of `classList.add` of a single token. -/
def addClassToken (className tok : String) : String :=
  if (jsSplitChar ' ' className).contains tok then className
  else if className == "" then tok
  else className ++ " " ++ tok

def addClasses (className : String) (toks : List String) : String :=
  toks.foldl addClassToken className

/-- Model of `el.hasClass(tok)` (token membership in the class string). -/
def hasClassTok (className tok : String) : Bool :=
  (jsSplitChar ' ' className).contains tok

/- ===================== settings.ts : settings model ===================== -/

/-- The declared type of one field of the `PDFPlusSettings` interface. -/
inductive STy where
  | boolT : STy
  | numT : STy
  | strT : STy
  | enumT (options : List String) : STy
  | colorRecordT : STy
deriving DecidableEq

/-- A value assigned by `DEFAULT_SETTINGS`. -/
inductive SVal where
  | b (x : Bool) : SVal
  | n (x : Int) : SVal
  | s (x : String) : SVal
  | record (entries : List (String × String)) : SVal
deriving DecidableEq

/-- A hex color string: `#` followed by at least one hex digit. -/
def isHexColorStr (s : String) : Bool :=
  match s.toList with
  | '#' :: rest => !rest.isEmpty && rest.all isHexDigitChar
  | _ => false

def valMatches : SVal → STy → Bool
  | .b _, .boolT => true
  | .n _, .numT => true
  | .s _, .strT => true
  | .s x, .enumT opts => opts.contains x
  | .record es, .colorRecordT => es.all (fun kv => isHexColorStr kv.2)
  | _, _ => false

/-- The `PDFPlusSettings` interface: every declared field with its declared
type, in source order.  `keyof`-typed fields are the corresponding string
unions (`HOVER_HIGHLIGHT_ACTIONS`, `ExtendedPaneType`,
`COLOR_PALETTE_ACTIONS`). -/
def PDFPlusSettings : List (String × STy) :=
  [ ("alias", .boolT),
    ("aliasFormat", .strT),
    ("trimSelectionEmbed", .boolT),
    ("noSidebarInEmbed", .boolT),
    ("embedUnscrollable", .boolT),
    ("zoomInEmbed", .numT),
    ("openLinkCleverly", .boolT),
    ("dontActivateAfterOpenPDF", .boolT),
    ("dontActivateAfterOpenMD", .boolT),
    ("highlightDuration", .numT),
    ("persistentHighlightsInEmbed", .boolT),
    ("highlightBacklinks", .boolT),
    ("clickEmbedToOpenLink", .boolT),
    ("highlightBacklinksPane", .boolT),
    ("colors", .colorRecordT),
    ("defaultColor", .strT),
    ("colorPaletteInToolbar", .boolT),
    ("colorPaletteInEmbedToolbar", .boolT),
    ("highlightColorSpecifiedOnly", .boolT),
    ("doubleClickHighlightToOpenBacklink", .boolT),
    ("hoverHighlightAction", .enumT ["open", "preview"]),
    ("paneTypeForFirstMDLeaf", .enumT ["", "tab", "split", "window"]),
    ("defaultColorPaletteAction", .enumT ["copyQuote", "copyLink", "copyEmbed"]),
    ("hoverPDFLinkToOpen", .boolT),
    ("ignoreHeightParamInPopoverPreview", .boolT),
    ("filterBacklinksByPageDefault", .boolT) ]

/-- Model of `DEFAULT_SETTINGS` object literal, every assigned field in source order. -/
def DEFAULT_SETTINGS : List (String × SVal) :=
  [ ("alias", .b true),
    ("aliasFormat", .s ""),
    ("trimSelectionEmbed", .b true),
    ("noSidebarInEmbed", .b true),
    ("embedUnscrollable", .b false),
    ("zoomInEmbed", .n 0),
    ("openLinkCleverly", .b true),
    ("dontActivateAfterOpenPDF", .b true),
    ("dontActivateAfterOpenMD", .b true),
    ("highlightDuration", .n 0),
    ("persistentHighlightsInEmbed", .b true),
    ("highlightBacklinks", .b true),
    ("clickEmbedToOpenLink", .b true),
    ("highlightBacklinksPane", .b true),
    ("colors", .record [("Yellow", "#ffd000"), ("Red", "#EA5252"), ("Blue", "#7b89f4")]),
    ("defaultColor", .s ""),
    ("colorPaletteInToolbar", .b true),
    ("colorPaletteInEmbedToolbar", .b false),
    ("highlightColorSpecifiedOnly", .b false),
    ("doubleClickHighlightToOpenBacklink", .b true),
    ("hoverHighlightAction", .s "open"),
    ("paneTypeForFirstMDLeaf", .s "split"),
    ("defaultColorPaletteAction", .s "copyQuote"),
    ("hoverPDFLinkToOpen", .b false),
    ("ignoreHeightParamInPopoverPreview", .b true),
    ("filterBacklinksByPageDefault", .b true) ]

/-- Model of `addNumberSetting`'s text `onChange` handler.  `toNumber` stands for the
JavaScript unary `+` conversion applied to the raw input string; the returned
flag records that `saveSettings` was called.  Source:
`settings[name] = value === '' ? DEFAULT_SETTINGS[name] : +value; await saveSettings()`. -/
def addNumberSettingOnChange {α : Type} (toNumber : String → α)
    (defaultVal : α) (value : String) : α × Bool :=
  ((if value == "" then defaultVal else toNumber value), true)

/-- The mutable state touched by `addColorSetting`'s rename handler. -/
structure ColorsState where
  colors : List (String × String)
  defaultColor : String
deriving DecidableEq

/-- JavaScript `k in obj` for the colors record, modelled as own-key
membership. -/
def jsInKeys (k : String) (m : List (String × String)) : Bool :=
  (m.find? (fun kv => kv.1 == k)).isSome

/-- Model of `delete obj[k]`. -/
def recDeleteKey (m : List (String × String)) (k : String) : List (String × String) :=
  m.filter (fun kv => kv.1 != k)

/-- Model of `obj[k] = v`: update in place when the key exists, else append. -/
def recSetKey (m : List (String × String)) (k v : String) : List (String × String) :=
  if (m.find? (fun kv => kv.1 == k)).isSome then
    m.map (fun kv => if kv.1 == k then (kv.1, v) else kv)
  else m ++ [(k, v)]

/-- Model of `addColorSetting`'s rename (text) `onChange` handler, for one invocation
right after the setting row was built with `(name, color)`:
`isDefault` is captured at setup time as `settings.defaultColor === name`.
Returns the new state and the notice text when one is shown.  The DOM
housekeeping (error class, dropdown option relabel) and `saveSettings` /
`loadStyle` calls mutate nothing modelled here. -/
def colorRenameOnChange (name color : String) (st : ColorsState)
    (newName : String) : ColorsState × Option String :=
  let colors := st.colors
  let isDefault := st.defaultColor == name
  if jsInKeys newName colors then
    (st, some "This color name is already used.")
  else
    let colors1 := recDeleteKey colors name
    let colors2 := recSetKey colors1 newName color
    ({ colors := colors2,
       defaultColor := if isDefault then newName else st.defaultColor }, none)

/- ================= backlink.ts : BacklinkHighlighter model ================= -/

/-- One rendered child of a text div: either a plain text node or an appended
highlight `span` (class string, `dataset.highlightColor`, text). -/
inductive Chunk where
  | plain (text : String) : Chunk
  | span (classNames : String) (color : Option String) (text : String) : Chunk
deriving DecidableEq

/-- A DOM element as far as the highlighter touches it. -/
structure Elem where
  nodeType : Nat
  chunks : List Chunk
  className : String
  highlightColor : Option String
deriving DecidableEq

def chunkText : Chunk → String
  | .plain t => t
  | .span _ _ t => t

/-- Model of `el.textContent` (concatenation of the text of all children). -/
def elemText (e : Elem) : String :=
  (e.chunks.map chunkText).foldl (fun a b => a ++ b) ""

structure TextItem where
  str : String
deriving DecidableEq

/-- Model of `pageView.textLayer`. -/
structure TextLayer where
  textDivs : List Elem
  textContentItems : List TextItem
deriving DecidableEq

/-- Model of `pageView.annotationLayer`: ids known to pdf.js (`getAnnotation`) and the
annotation elements reachable by `querySelector('[data-annotation-id=...]')`. -/
structure AnnotLayer where
  annotIds : List String
  domAnnots : List (String × Elem)
deriving DecidableEq

/-- A pdf.js page view; `loaded` models `pageView.div.dataset.loaded`. -/
structure PageView where
  textLayer : Option TextLayer
  annotationLayer : Option AnnotLayer
  loaded : Bool
deriving DecidableEq

/-- Model of `ObsidianViewer`: `getPageView i` is `arrGet pages (some i)`. -/
structure Viewer where
  isEmbed : Bool
  pagesCount : Int
  pdfViewer : Option (List PageView)
deriving DecidableEq

/-- A `LinkCache` entry for a backlink, reduced to what `setBacklinks` reads:
the query parameters of the link's subpath (the result of
`new URLSearchParams(getSubpathWithoutHash(link.link))`, listed in order;
`URLSearchParams.get` returns the first value for a key). -/
structure Link where
  params : List (String × String)
deriving DecidableEq

/-- A `SelectionBacklinkInfo` record as pushed by `setBacklinks`. -/
structure SelBacklink where
  sourcePath : String
  linkCache : Link
  pageNumber : JsInt
  beginIndex : JsInt
  beginOffset : JsInt
  endIndex : JsInt
  endOffset : JsInt
  colorName : Option String
  annotationEls : Option (List Elem)
  backlinkItemEl : Option Elem
deriving DecidableEq

/-- An `AnnotationBacklinkInfo` record as pushed by `setBacklinks`. -/
structure AnnBacklink where
  sourcePath : String
  linkCache : Link
  pageNumber : JsInt
  id : String
  annotationEls : Option (List Elem)
  backlinkItemEl : Option Elem
deriving DecidableEq

/-- The per-page record `{ selection: [...], annotation: [...] }`; the second
source field is called `annots` here because of Lean naming constraints. -/
structure PageLinks where
  selection : List SelBacklink
  annots : List AnnBacklink
deriving DecidableEq

/-- Model of `this.backlinks`: a record keyed by the page number (`none` is the `NaN`
key).  JavaScript re-orders integer keys on enumeration; no modelled code
observes the order, so insertion order is kept. -/
abbrev BacklinkMap := List (JsInt × PageLinks)

inductive EReg where
  | textLayerReady : EReg
  | annotLayerReady : EReg
deriving DecidableEq

inductive JsErr where
  | typeError : JsErr
deriving DecidableEq

/-- The mutable state of a `BacklinkHighlighter` plus the DOM facts the claims
observe (`detachedEls` logs elements removed by `el.detach()`, `notices` and
`loggedErrors` log `new Notice(...)` and `console.error(...)`).
`resolvedRegs` counts handlers registered on the metadata cache's `resolved`
event; `eventRegs` holds `eventManager`-scoped registrations. -/
structure HState where
  file : Option String
  viewer : Viewer
  backlinks : BacklinkMap
  highlightedTexts : List (JsInt × JsInt)
  highlightedAnnotations : List (String × Elem)
  eventRegs : List EReg
  resolvedRegs : Nat
  detachedEls : List Elem
  notices : List String
  loggedErrors : List JsErr
deriving DecidableEq

/-- The host environment: plugin settings read by the highlighter, the plugin
manifest name, and `app.metadataCache.getBacklinksForFile` as a function from
the file path to `(sourcePath, links)` pairs. -/
structure Env where
  manifestName : String
  highlightBacklinksSetting : Bool
  backlinkDict : String → List (String × List Link)

/-- Model of `URLSearchParams.get` (first match, `null` ↦ `none`). -/
def paramsGet (params : List (String × String)) (k : String) : Option String :=
  assocGet params k

/-- Model of `URLSearchParams.has`. -/
def paramsHas (params : List (String × String)) (k : String) : Bool :=
  (paramsGet params k).isSome

/-- Model of `if (!backlinks[page]) backlinks[page] = {selection: [], annotation: []};
backlinks[page].selection.push(e)` (record keys are unique, so the update hits
the one entry with that key). -/
def recPushSel (m : BacklinkMap) (page : JsInt) (e : SelBacklink) : BacklinkMap :=
  match m with
  | [] => [(page, ⟨[e], []⟩)]
  | kv :: rest =>
    if kv.1 == page then (kv.1, { kv.2 with selection := kv.2.selection ++ [e] }) :: rest
    else kv :: recPushSel rest page e

/-- Same for the annotation list. -/
def recPushAnn (m : BacklinkMap) (page : JsInt) (e : AnnBacklink) : BacklinkMap :=
  match m with
  | [] => [(page, ⟨[], [e]⟩)]
  | kv :: rest =>
    if kv.1 == page then (kv.1, { kv.2 with annots := kv.2.annots ++ [e] }) :: rest
    else kv :: recPushAnn rest page e

/-- The parsed selection values `params.get('selection')!.split(',').map(parseInt)`. -/
def selParsed (params : List (String × String)) : List JsInt :=
  (jsSplitChar ',' ((paramsGet params "selection").getD "")).map jsParseInt

/-- The parsed page `parseInt(params.get('page')!)`. -/
def pageParsed (params : List (String × String)) : JsInt :=
  jsParseInt ((paramsGet params "page").getD "")

/-- The body of `setBacklinks`'s inner loop for one backlink `link` from
`sourcePath`, updating the map under construction. -/
def setBacklinksStep (sourcePath : String) (m : BacklinkMap) (link : Link) : BacklinkMap :=
  let params := link.params
  if paramsHas params "page" && paramsHas params "selection" then
    let page := pageParsed params
    let selection := selParsed params
    let color := paramsGet params "color"
    if selection.length == 4 then
      recPushSel m page
        { sourcePath := sourcePath
          linkCache := link
          pageNumber := page
          beginIndex := selection.getD 0 none
          beginOffset := selection.getD 1 none
          endIndex := selection.getD 2 none
          endOffset := selection.getD 3 none
          colorName := color
          annotationEls := none
          backlinkItemEl := none }
    else m
  else if paramsHas params "page" && paramsHas params "annotation" then
    let page := pageParsed params
    let annotId := (paramsGet params "annotation").getD ""
    recPushAnn m page
      { sourcePath := sourcePath
        linkCache := link
        pageNumber := page
        id := annotId
        annotationEls := none
        backlinkItemEl := none }
  else m

/-- The map built from the whole backlink dictionary (`this.backlinks = {}`
followed by the nested loops). -/
def buildBacklinks (dict : List (String × List Link)) : BacklinkMap :=
  dict.foldl (fun m kv => kv.2.foldl (setBacklinksStep kv.1) m) []

/-- Model of `BacklinkHighlighter.setBacklinks(file)`. -/
def setBacklinks (env : Env) (file : String) (st : HState) : HState :=
  { st with backlinks := buildBacklinks (env.backlinkDict file) }

/-- The state threaded through `highlightText`'s inner helpers: the current
page's `textDivs` plus the highlighter's `highlightedTexts` list.
(`textContentItems` is never written.)  The `onHighlight` callback sites are
noted in comments; no claim observes the callback. -/
structure TLState where
  textDivs : List Elem
  highlightedTexts : List (JsInt × JsInt)
deriving DecidableEq

/-- Inner `divideAndWrapText(index, from, to, className)` of `highlightText`.
Throws (as the source would) when `textDivs[index]` or
`textContentItems[index]` is `undefined`; the thrown state carries the
mutations already performed. -/
def divideAndWrapText (pageNumber : JsInt) (colorName : Option String)
    (items : List TextItem) (index from_ : JsInt) (to_ : Option JsInt)
    (className : Option String) (s : TLState) : Except (TLState × JsErr) TLState :=
  let s := { s with highlightedTexts := s.highlightedTexts ++ [(pageNumber, index)] }
  match arrGet s.textDivs index with
  | none => .error (s, .typeError)
  | some textDiv0 =>
    -- if text node, wrap it with span (span is inserted before and absorbs it)
    let wrapped :=
      if textDiv0.nodeType == 3 then
        let span : Elem := ⟨1, textDiv0.chunks, "", none⟩
        ({ s with textDivs := arrSet s.textDivs index span }, span)
      else (s, textDiv0)
    let s1 := wrapped.1
    let textDiv := wrapped.2
    match arrGet items index with
    | none => .error (s1, .typeError)
    | some item =>
      let text := jsSubstring item.str from_ to_
      if jsTruthyStr className then
        -- textDiv.createSpan(className + " appended"), optional dataset color,
        -- append the text node, then onHighlight?.(highlightWrapperEl)
        let color := if jsTruthyStr colorName then some ((colorName.getD "").toLower) else none
        let textDiv' := { textDiv with
          chunks := textDiv.chunks ++ [.span ((className.getD "") ++ " appended") color text] }
        .ok { s1 with textDivs := arrSet s1.textDivs index textDiv' }
      else
        let textDiv' := { textDiv with chunks := textDiv.chunks ++ [.plain text] }
        .ok { s1 with textDivs := arrSet s1.textDivs index textDiv' }

/-- Inner `divideAndWrapTextStart(index, offset, className)`:
`textDivs[index].textContent = ""` then `divideAndWrapText(index, 0, offset, className)`. -/
def divideAndWrapTextStart (pageNumber : JsInt) (colorName : Option String)
    (items : List TextItem) (index offset : JsInt) (className : Option String)
    (s : TLState) : Except (TLState × JsErr) TLState :=
  match arrGet s.textDivs index with
  | none => .error (s, .typeError)
  | some d =>
    let s := { s with textDivs := arrSet s.textDivs index { d with chunks := [] } }
    divideAndWrapText pageNumber colorName items index (some 0) (some offset) className s

/-- Body of `for (let i = beginIndex + 1; i < endIndex; i++)`, iterating on
explicit fuel (the number of remaining iterations). -/
def middleLoopGo (pageNumber : JsInt) (colorName : Option String) (cls : String)
    (e : Int) (i : Int) (fuel : Nat) (s : TLState) : Except (TLState × JsErr) TLState :=
  match fuel with
  | 0 => .ok s
  | fuel' + 1 =>
    if i < e then
      let s := { s with highlightedTexts := s.highlightedTexts ++ [(pageNumber, some i)] }
      match arrGet s.textDivs (some i) with
      | none => .error (s, .typeError)
      | some d =>
        let d1 := { d with className := addClasses d.className ["mod-focused", "middle", "selected", cls] }
        let d2 :=
          if jsTruthyStr colorName then
            { d1 with highlightColor := some ((colorName.getD "").toLower) }
          else d1
        -- onHighlight?.(textDivs[i])
        let s := { s with textDivs := arrSet s.textDivs (some i) d2 }
        middleLoopGo pageNumber colorName cls e (i + 1) fuel' s
    else .ok s

/-- The middle-div loop of `highlightText`; with a `NaN` bound the JS loop
condition is false and the loop body never runs. -/
def middleLoop (pageNumber : JsInt) (colorName : Option String) (cls : String)
    (beginIndex endIndex : JsInt) (s : TLState) : Except (TLState × JsErr) TLState :=
  match beginIndex, endIndex with
  | some b, some e => middleLoopGo pageNumber colorName cls e (b + 1) (e - (b + 1)).toNat s
  | _, _ => .ok s

/-- The body of `highlightText` once the page view and its loaded text layer
are in hand. -/
def highlightTextCore (pageNumber beginIndex beginOffset endIndex endOffset : JsInt)
    (colorName : Option String) (items : List TextItem) (s : TLState) :
    Except (TLState × JsErr) TLState := do
  let cls := "pdf-plus-backlink"
  let s ← divideAndWrapTextStart pageNumber colorName items beginIndex beginOffset none s
  let s ←
    if jsEqNum beginIndex endIndex then
      divideAndWrapText pageNumber colorName items beginIndex beginOffset (some endOffset)
        (some ("mod-focused selected " ++ cls)) s
    else do
      let s ← divideAndWrapText pageNumber colorName items beginIndex beginOffset none
        (some ("mod-focused begin selected " ++ cls)) s
      let s ← middleLoop pageNumber colorName cls beginIndex endIndex s
      divideAndWrapTextStart pageNumber colorName items endIndex endOffset
        (some ("mod-focused endselected " ++ cls)) s
  divideAndWrapText pageNumber colorName items endIndex endOffset none none s

/-- Write the mutated text layer back into the viewer state. -/
def writeBackTL (st : HState) (pages : List PageView) (pageNumber : JsInt)
    (pv : PageView) (tl : TextLayer) (s : TLState) : HState :=
  let tl' := { tl with textDivs := s.textDivs }
  let pages' := arrSet pages (jsSub pageNumber (some 1)) { pv with textLayer := some tl' }
  { st with
    viewer := { st.viewer with pdfViewer := some pages' }
    highlightedTexts := s.highlightedTexts }

/-- Model of `BacklinkHighlighter.highlightText` (the `onHighlight` parameter is not
modelled; its only callers use it for event hooking, which no claim observes). -/
def highlightText (pageNumber beginIndex beginOffset endIndex endOffset : JsInt)
    (colorName : Option String) (st : HState) : Except (HState × JsErr) HState :=
  if !(jsLt pageNumber (some 1) || jsGt pageNumber (some st.viewer.pagesCount)) then
    match st.viewer.pdfViewer with
    | none => .ok st
    | some pages =>
      match arrGet pages (jsSub pageNumber (some 1)) with
      | none => .ok st
      | some pv =>
        match pv.textLayer with
        | none => .ok st
        | some tl =>
          if pv.loaded then
            match highlightTextCore pageNumber beginIndex beginOffset endIndex endOffset
                colorName tl.textContentItems ⟨tl.textDivs, st.highlightedTexts⟩ with
            | .ok s1 => .ok (writeBackTL st pages pageNumber pv tl s1)
            | .error (s1, e) => .error (writeBackTL st pages pageNumber pv tl s1, e)
          else .ok st
  else .ok st

/-- Model of `backlinks[page]?.selection.forEach((b) => b.annotationEls = null)`. -/
def recNullifySel (m : BacklinkMap) (page : JsInt) : BacklinkMap :=
  m.map (fun kv =>
    if kv.1 == page then
      (kv.1, { kv.2 with selection := kv.2.selection.map (fun b => { b with annotationEls := none }) })
    else kv)

/-- The loop body plus early exit of `clearTextHighlight`; iterates the
snapshot of `highlightedTexts` (the loop never mutates the array; the final
`this.highlightedTexts = []` runs only when the loop finishes). -/
def clearTextHighlightGo (entries : List (JsInt × JsInt)) (st : HState) :
    Except (HState × JsErr) HState :=
  match entries with
  | [] => .ok { st with highlightedTexts := [] }
  | (page, index) :: rest =>
    match st.viewer.pdfViewer with
    | none => .ok st  -- pageView undefined: `if (!pageView?.textLayer) return;`
    | some pages =>
      match arrGet pages (jsSub page (some 1)) with
      | none => .ok st
      | some pv =>
        match pv.textLayer with
        | none => .ok st  -- text layer not rendered: early return, list not cleared
        | some tl =>
          match arrGet tl.textDivs index, arrGet tl.textContentItems index with
          | some td, some item =>
            let td' : Elem :=
              ⟨td.nodeType, [Chunk.plain item.str],
                (if hasClassTok td.className "textLayerNode" then "textLayerNode" else ""),
                td.highlightColor⟩
            let tl' := { tl with textDivs := arrSet tl.textDivs index td' }
            let pages' := arrSet pages (jsSub page (some 1)) { pv with textLayer := some tl' }
            let st' := { st with
              viewer := { st.viewer with pdfViewer := some pages' }
              backlinks := recNullifySel st.backlinks page }
            clearTextHighlightGo rest st'
          | _, _ => .error (st, .typeError)

/-- Model of `BacklinkHighlighter.clearTextHighlight`. -/
def clearTextHighlight (st : HState) : Except (HState × JsErr) HState :=
  clearTextHighlightGo st.highlightedTexts st

/-- Model of `Map.set` (update in place, else append). -/
def mapSet (m : List (String × Elem)) (k : String) (v : Elem) : List (String × Elem) :=
  if (m.find? (fun kv => kv.1 == k)).isSome then
    m.map (fun kv => if kv.1 == k then (kv.1, v) else kv)
  else m ++ [(k, v)]

/-- Model of `Map.delete` (first occurrence). -/
def mapDelete (m : List (String × Elem)) (k : String) : List (String × Elem) :=
  match m with
  | [] => []
  | kv :: rest => if kv.1 == k then rest else kv :: mapDelete rest k

/-- The rectangular highlight element created by the source's `createDiv`
call; its CSS geometry (normalizeRect and the percentage styles) is not
observed by any claim and is not modelled. -/
def rectElem : Elem := ⟨1, [], "boundingRect mod-focused", none⟩

/-- Model of `BacklinkHighlighter.highlightAnnotation` (named `highlightAnnotEl` for
Lean naming constraints): page-number guard, optional chaining to the
annotation layer, `getAnnotation(id)` lookup, then the bounding-rect div is
created and registered in `highlightedAnnotations`. -/
def highlightAnnotEl (pageNumber : JsInt) (id : String) (st : HState) : HState :=
  if !(jsLt pageNumber (some 1) || jsGt pageNumber (some st.viewer.pagesCount)) then
    match st.viewer.pdfViewer with
    | none => st
    | some pages =>
      match arrGet pages (jsSub pageNumber (some 1)) with
      | none => st
      | some pv =>
        match pv.annotationLayer with
        | none => st
        | some al =>
          if pv.loaded then
            if al.annotIds.contains id then
              { st with highlightedAnnotations := mapSet st.highlightedAnnotations id rectElem }
            else st
          else st
  else st

/-- Model of `BacklinkHighlighter.processAnnotation` (named `processAnnotEl`): same
guards, then `querySelector('[data-annotation-id=...]')`; returns the element
the callback would be invoked with (the function itself mutates nothing). -/
def processAnnotEl (pageNumber : JsInt) (id : String) (st : HState) : Option Elem :=
  if !(jsLt pageNumber (some 1) || jsGt pageNumber (some st.viewer.pagesCount)) then
    match st.viewer.pdfViewer with
    | none => none
    | some pages =>
      match arrGet pages (jsSub pageNumber (some 1)) with
      | none => none
      | some pv =>
        match pv.annotationLayer with
        | none => none
        | some al =>
          if pv.loaded then assocGet al.domAnnots id
          else none
  else none

/-- Model of `BacklinkHighlighter.clearAnnotationHighlight`. -/
def clearAnnotationHighlight (id : String) (st : HState) : HState :=
  match (st.highlightedAnnotations.find? (fun kv => kv.1 == id)) with
  | some kv =>
    { st with
      detachedEls := st.detachedEls ++ [kv.2]
      highlightedAnnotations := mapDelete st.highlightedAnnotations id }
  | none => st

/-- The source method `_highlightBacklinks`: the guards, the rebuild via
`setBacklinks`, `clearTextHighlight`, the `eventManager` reload, and the
layer-ready callback registrations (`onTextLayerReady` /
`onAnnotationLayerReady` register callbacks with the event manager; the host
fires them later, outside this call). -/
def _highlightBacklinks (env : Env) (st : HState) :
    Except (HState × JsErr) HState :=
  match st.file with
  | none => .ok st
  | some file =>
    if st.viewer.isEmbed then .ok st
    else if !env.highlightBacklinksSetting then .ok st
    else
      match clearTextHighlight (setBacklinks env file st) with
      | .error r => .error r
      | .ok st2 =>
        -- eventManager.unload(); removeChild; addChild (drops every
        -- eventManager registration), then the two layer-ready registrations
        .ok { st2 with eventRegs := [EReg.textLayerReady, EReg.annotLayerReady] }

/-- Model of `BacklinkHighlighter.highlightBacklinks`: try/catch around the routine;
on an exception one `Notice` and one `console.error`. -/
def highlightBacklinks (env : Env) (st : HState) : HState :=
  match _highlightBacklinks env st with
  | .ok st1 => st1
  | .error (st1, e) =>
    { st1 with
      notices := st1.notices ++
        [env.manifestName ++ ": Failed to highlight backlinks. Reopen the file to retry."]
      loggedErrors := st1.loggedErrors ++ [e] }

/-- Model of `BacklinkHighlighter.onload`: nothing for embeds; otherwise highlight once
and register the `metadataCache.on('resolved', () => highlightBacklinks())`
handler. -/
def onload (env : Env) (st : HState) : HState :=
  if !st.viewer.isEmbed then
    { highlightBacklinks env st with
      resolvedRegs := (highlightBacklinks env st).resolvedRegs + 1 }
  else st

/-- Firing the metadata cache's `resolved` event: every registered handler
(each is `() => this.highlightBacklinks()`) runs. -/
def dispatchResolved (env : Env) (st : HState) : HState :=
  (List.range st.resolvedRegs).foldl (fun s _ => highlightBacklinks env s) st

/-- Model of `BacklinkHighlighter.onunload`: `clearTextHighlight()` then
`clearAnnotationHighlight(id)` for each key of `highlightedAnnotations`
(deleting the current key does not disturb a JS `Map` keys iterator, so the
key snapshot is faithful). -/
def onunload (st : HState) : Except (HState × JsErr) HState :=
  match clearTextHighlight st with
  | .error r => .error r
  | .ok st1 =>
    .ok ((st1.highlightedAnnotations.map (fun kv => kv.1)).foldl
      (fun s id => clearAnnotationHighlight id s) st1)

deriving instance DecidableEq for Except

theorem arrGet_arrSet_self {α : Type} (l : List α) (i : JsInt) (x v : α)
    (h : arrGet l i = some x) : arrGet (arrSet l i v) i = some v := by
  cases i with
  | none => simp [arrGet] at h
  | some n =>
    simp only [arrGet, arrSet] at h ⊢
    by_cases hn : (0 : Int) ≤ n
    · rw [if_pos hn] at h ⊢
      rw [if_pos hn]
      have hlt : n.toNat < l.length := by
        have h2 : (l.get? n.toNat).isSome = true := by rw [h]; rfl
        rw [List.get?_eq_getElem?, getElem?_isSome_eq] at h2
        exact of_decide_eq_true h2
      rw [List.get?_eq_getElem?, List.getElem?_set_eq_of_lt _ hlt]
    · rw [if_neg hn] at h
      exact absurd h (by simp)

/- ======================= claims C7, C8, C9 ======================= -/

/-- C7: `DEFAULT_SETTINGS` assigns to every field declared in the
`PDFPlusSettings` interface a value of the declared type (booleans for
toggles, numbers for numeric options, strings — within the declared string
unions — for format/color/pane-type options, and a string-to-hex-color record
for `colors`), and assigns no field outside the interface. -/
theorem default_settings_shape :
    (PDFPlusSettings.all (fun ft =>
      match assocGet DEFAULT_SETTINGS ft.1 with
      | some v => valMatches v ft.2
      | none => false) = true)
    ∧ (DEFAULT_SETTINGS.all (fun kv =>
        PDFPlusSettings.any (fun ft => ft.1 == kv.1)) = true) := by
  constructor <;> decide

/-- C8: in `addNumberSetting`'s change handler, the empty string resets the
setting to its `DEFAULT_SETTINGS` value and every non-empty string sets it to
the numeric conversion (`+value`) of the string; in both cases the settings
are saved afterwards (the returned flag). -/
theorem addNumberSetting_onChange_spec {α : Type} (toNumber : String → α)
    (d : α) (v : String) :
    (v = "" → addNumberSettingOnChange toNumber d v = (d, true))
    ∧ (v ≠ "" → addNumberSettingOnChange toNumber d v = (toNumber v, true)) := by
  constructor
  · intro h
    subst h
    rfl
  · intro h
    unfold addNumberSettingOnChange
    rw [if_neg (by simpa using h)]

theorem addNumberSetting_onChange_spec_witness :
    addNumberSettingOnChange (fun s => (s.length : Int)) 7 "" = (7, true)
    ∧ addNumberSettingOnChange (fun s => (s.length : Int)) 7 "42" = (2, true) :=
  ⟨(addNumberSetting_onChange_spec (fun s => (s.length : Int)) 7 "").1 rfl,
   (addNumberSetting_onChange_spec (fun s => (s.length : Int)) 7 "42").2 (by decide)⟩


theorem recSetKey_not_in (m : List (String × String)) (k v : String)
    (h : jsInKeys k m = false) : recSetKey m k v = m ++ [(k, v)] := by
  unfold recSetKey
  rw [if_neg]
  rw [jsInKeys] at h
  simp [h]

theorem jsInKeys_cons_false {kv : String × String} {rest : List (String × String)} {k : String}
    (h : jsInKeys k (kv :: rest) = false) : (kv.1 == k) = false ∧ jsInKeys k rest = false := by
  rw [jsInKeys, List.find?] at h
  cases hk : kv.1 == k with
  | true => rw [hk] at h; simp at h
  | false =>
    rw [hk] at h
    exact ⟨rfl, h⟩

theorem assocGet_append_single (m : List (String × String)) (k v : String)
    (h : jsInKeys k m = false) : assocGet (m ++ [(k, v)]) k = some v := by
  induction m with
  | nil => simp [assocGet, List.find?]
  | cons kv rest ih =>
    obtain ⟨h1, h2⟩ := jsInKeys_cons_false h
    rw [List.cons_append, assocGet, List.find?, h1]
    exact ih h2

theorem jsInKeys_append_single_ne (m : List (String × String)) (k v q : String)
    (h : q ≠ k) : jsInKeys q (m ++ [(k, v)]) = jsInKeys q m := by
  induction m with
  | nil =>
    simp only [List.nil_append, jsInKeys, List.find?]
    have hkq : (k == q) = false := by
      simp only [beq_eq_false_iff_ne, ne_eq]
      exact fun hc => h hc.symm
    rw [hkq]
  | cons kv rest ih =>
    simp only [List.cons_append, jsInKeys, List.find?]
    cases hq : kv.1 == q with
    | true => rfl
    | false => exact ih

theorem jsInKeys_recDeleteKey_self (m : List (String × String)) (k : String) :
    jsInKeys k (recDeleteKey m k) = false := by
  induction m with
  | nil => rfl
  | cons kv rest ih =>
    rw [recDeleteKey, List.filter]
    cases hk : kv.1 != k with
    | false => exact ih
    | true =>
      rw [jsInKeys, List.find?]
      have hkk : (kv.1 == k) = false := by
        simpa [bne] using hk
      rw [hkk]
      exact ih

theorem jsInKeys_recDeleteKey_of_false (m : List (String × String)) (k q : String)
    (h : jsInKeys q m = false) : jsInKeys q (recDeleteKey m k) = false := by
  induction m with
  | nil => rfl
  | cons kv rest ih =>
    obtain ⟨h1, h2⟩ := jsInKeys_cons_false h
    rw [recDeleteKey, List.filter]
    cases hk : kv.1 != k with
    | false => exact ih h2
    | true =>
      rw [jsInKeys, List.find?, h1]
      exact ih h2

/-- C9: renaming a color is atomic on name collision.  When the new name is
already a key of the colors record (including the color's own current name)
the handler only reports the notice and leaves the colors record and
`defaultColor` unchanged; when it is not, the old key is removed, the new key
maps to the same color value, and `defaultColor` becomes the new name exactly
when the renamed color was the default. -/
theorem addColorSetting_rename_atomic (name color newName : String) (st : ColorsState) :
    (jsInKeys newName st.colors = true →
      colorRenameOnChange name color st newName = (st, some "This color name is already used."))
    ∧ (jsInKeys newName st.colors = false →
      (colorRenameOnChange name color st newName).2 = none
      ∧ assocGet (colorRenameOnChange name color st newName).1.colors newName = some color
      ∧ (newName ≠ name →
          jsInKeys name (colorRenameOnChange name color st newName).1.colors = false)
      ∧ (colorRenameOnChange name color st newName).1.defaultColor
          = (if st.defaultColor = name then newName else st.defaultColor)) := by
  constructor
  · intro h
    unfold colorRenameOnChange
    rw [if_pos h]
  · intro h
    have hset : recSetKey (recDeleteKey st.colors name) newName color
        = recDeleteKey st.colors name ++ [(newName, color)] :=
      recSetKey_not_in _ _ _ (jsInKeys_recDeleteKey_of_false _ _ _ h)
    unfold colorRenameOnChange
    rw [if_neg (by simp [h])]
    refine ⟨rfl, ?_, ?_, ?_⟩
    · simpa [hset] using
        assocGet_append_single (recDeleteKey st.colors name) newName color
          (jsInKeys_recDeleteKey_of_false _ _ _ h)
    · intro hne
      simp only [hset]
      rw [jsInKeys_append_single_ne _ _ _ _ (Ne.symm hne)]
      exact jsInKeys_recDeleteKey_self _ _
    · by_cases hd : st.defaultColor = name
      · simp [hd]
      · simp [hd]

def stC9 : ColorsState :=
  { colors := [("Yellow", "#ffd000"), ("Red", "#EA5252")], defaultColor := "Red" }

theorem addColorSetting_rename_atomic_witness :
    (jsInKeys "Yellow" stC9.colors = true
      ∧ colorRenameOnChange "Red" "#EA5252" stC9 "Yellow"
        = (stC9, some "This color name is already used."))
    ∧ (jsInKeys "Crimson" stC9.colors = false
      ∧ assocGet (colorRenameOnChange "Red" "#EA5252" stC9 "Crimson").1.colors "Crimson"
        = some "#EA5252"
      ∧ (colorRenameOnChange "Red" "#EA5252" stC9 "Crimson").1.defaultColor = "Crimson") := by
  constructor
  · exact ⟨by decide,
      (addColorSetting_rename_atomic "Red" "#EA5252" "Yellow" stC9).1 (by decide)⟩
  · refine ⟨by decide, ?_, ?_⟩
    · exact ((addColorSetting_rename_atomic "Red" "#EA5252" "Crimson" stC9).2 (by decide)).2.1
    · have hd := ((addColorSetting_rename_atomic "Red" "#EA5252" "Crimson" stC9).2 (by decide)).2.2.2
      simpa using hd

/- ======================= claims C1, C10 ======================= -/

/-- Total number of backlink entries (selection plus annotation descriptors)
stored in the map. -/
def totalEntries (m : BacklinkMap) : Nat :=
  (m.map (fun kv => kv.2.selection.length + kv.2.annots.length)).sum

theorem totalEntries_recPushSel (m : BacklinkMap) (page : JsInt) (e : SelBacklink) :
    totalEntries (recPushSel m page e) = totalEntries m + 1 := by
  induction m with
  | nil => simp [recPushSel, totalEntries]
  | cons kv rest ih =>
    rw [recPushSel]
    by_cases hk : kv.1 == page
    · rw [if_pos hk]
      simp only [totalEntries, List.map_cons, List.sum_cons, List.length_append,
        List.length_cons, List.length_nil]
      omega
    · rw [if_neg hk]
      simp only [totalEntries, List.map_cons, List.sum_cons] at ih ⊢
      omega

theorem totalEntries_recPushAnn (m : BacklinkMap) (page : JsInt) (e : AnnBacklink) :
    totalEntries (recPushAnn m page e) = totalEntries m + 1 := by
  induction m with
  | nil => simp [recPushAnn, totalEntries]
  | cons kv rest ih =>
    rw [recPushAnn]
    by_cases hk : kv.1 == page
    · rw [if_pos hk]
      simp only [totalEntries, List.map_cons, List.sum_cons, List.length_append,
        List.length_cons, List.length_nil]
      omega
    · rw [if_neg hk]
      simp only [totalEntries, List.map_cons, List.sum_cons] at ih ⊢
      omega

/-- C1: `setBacklinks` creates a highlight-target entry for a backlink if and
only if its subpath query parameters match the recognized grammar: `page`
together with a `selection` splitting into exactly four comma-separated
values (parsed as begin index, begin offset, end index, end offset of a
selection entry under the parsed page, with an optional `color` value as the
entry's color name), or — the `selection` branch having priority — `page`
without `selection` but with `annotation` (an annotation entry with that id
under the parsed page); a `selection` value that does not split into exactly
four components yields no entry. -/
theorem setBacklinks_grammar (sourcePath : String) (m : BacklinkMap) (link : Link) :
    (paramsHas link.params "page" = true → paramsHas link.params "selection" = true →
      ((selParsed link.params).length = 4 →
        setBacklinksStep sourcePath m link =
          recPushSel m (pageParsed link.params)
            { sourcePath := sourcePath
              linkCache := link
              pageNumber := pageParsed link.params
              beginIndex := (selParsed link.params).getD 0 none
              beginOffset := (selParsed link.params).getD 1 none
              endIndex := (selParsed link.params).getD 2 none
              endOffset := (selParsed link.params).getD 3 none
              colorName := paramsGet link.params "color"
              annotationEls := none
              backlinkItemEl := none }
        ∧ totalEntries (setBacklinksStep sourcePath m link) = totalEntries m + 1)
      ∧ ((selParsed link.params).length ≠ 4 →
        setBacklinksStep sourcePath m link = m))
    ∧ (paramsHas link.params "page" = true → paramsHas link.params "selection" = false →
       paramsHas link.params "annotation" = true →
        setBacklinksStep sourcePath m link =
          recPushAnn m (pageParsed link.params)
            { sourcePath := sourcePath
              linkCache := link
              pageNumber := pageParsed link.params
              id := (paramsGet link.params "annotation").getD ""
              annotationEls := none
              backlinkItemEl := none }
        ∧ totalEntries (setBacklinksStep sourcePath m link) = totalEntries m + 1)
    ∧ ((paramsHas link.params "page" = false ∨
        (paramsHas link.params "selection" = false ∧
         paramsHas link.params "annotation" = false)) →
        setBacklinksStep sourcePath m link = m) := by
  refine ⟨?_, ?_, ?_⟩
  · intro hp hs
    constructor
    · intro h4
      have heq : setBacklinksStep sourcePath m link =
          recPushSel m (pageParsed link.params)
            { sourcePath := sourcePath
              linkCache := link
              pageNumber := pageParsed link.params
              beginIndex := (selParsed link.params).getD 0 none
              beginOffset := (selParsed link.params).getD 1 none
              endIndex := (selParsed link.params).getD 2 none
              endOffset := (selParsed link.params).getD 3 none
              colorName := paramsGet link.params "color"
              annotationEls := none
              backlinkItemEl := none } := by
        unfold setBacklinksStep
        simp [hp, hs, h4]
      exact ⟨heq, by rw [heq, totalEntries_recPushSel]⟩
    · intro h4
      unfold setBacklinksStep
      simp [hp, hs, h4]
  · intro hp hs ha
    have heq : setBacklinksStep sourcePath m link =
        recPushAnn m (pageParsed link.params)
          { sourcePath := sourcePath
            linkCache := link
            pageNumber := pageParsed link.params
            id := (paramsGet link.params "annotation").getD ""
            annotationEls := none
            backlinkItemEl := none } := by
      unfold setBacklinksStep
      simp [hp, hs, ha]
    exact ⟨heq, by rw [heq, totalEntries_recPushAnn]⟩
  · intro h
    unfold setBacklinksStep
    rcases h with h | ⟨h1, h2⟩
    · simp [h]
    · simp [h1, h2]

def linkSelW : Link := ⟨[("page", "2"), ("selection", "1,2,3,4"), ("color", "Red")]⟩

theorem setBacklinks_grammar_witness :
    setBacklinksStep "note.md" [] linkSelW
      = [(some 2,
          ⟨[{ sourcePath := "note.md"
              linkCache := linkSelW
              pageNumber := some 2
              beginIndex := some 1
              beginOffset := some 2
              endIndex := some 3
              endOffset := some 4
              colorName := some "Red"
              annotationEls := none
              backlinkItemEl := none }], []⟩)]
    ∧ totalEntries (setBacklinksStep "note.md" [] linkSelW) = 1 := by
  have h := ((setBacklinks_grammar "note.md" [] linkSelW).1 (by decide) (by decide)).1 (by decide)
  constructor
  · rw [h.1]
    decide
  · simpa using h.2

/-- C10: whenever the highlighter's file is `null`, the viewer is an embed, or
the `highlightBacklinks` setting is off, `_highlightBacklinks` returns before
doing anything, leaving the whole state (backlinks map, highlighted texts and
annotations, registered handlers) unchanged. -/
theorem highlightBacklinks_guard_noop (env : Env) (st : HState)
    (h : st.file = none ∨ st.viewer.isEmbed = true ∨ env.highlightBacklinksSetting = false) :
    _highlightBacklinks env st = .ok st := by
  unfold _highlightBacklinks
  rcases h with h | h | h
  · rw [h]
  · cases hf : st.file with
    | none => rfl
    | some f => simp [h]
  · cases hf : st.file with
    | none => rfl
    | some f =>
      cases he : st.viewer.isEmbed with
      | true => simp
      | false => simp [h]

def envOff : Env :=
  { manifestName := "PDF++", highlightBacklinksSetting := false, backlinkDict := fun _ => [] }

def pv0 : PageView := { textLayer := none, annotationLayer := none, loaded := false }

def stBase : HState :=
  { file := some "file.pdf"
    viewer := { isEmbed := false, pagesCount := 1, pdfViewer := some [pv0] }
    backlinks := []
    highlightedTexts := []
    highlightedAnnotations := []
    eventRegs := []
    resolvedRegs := 0
    detachedEls := []
    notices := []
    loggedErrors := [] }

theorem highlightBacklinks_guard_noop_witness :
    envOff.highlightBacklinksSetting = false
    ∧ _highlightBacklinks envOff stBase = .ok stBase :=
  ⟨rfl, highlightBacklinks_guard_noop envOff stBase (Or.inr (Or.inr rfl))⟩

/- ======================= claim C3 ======================= -/

/-- Fields of the highlighter state that `clearTextHighlight` never touches. -/
def clearFrame (st st' : HState) : Prop :=
  st'.file = st.file
  ∧ st'.viewer.isEmbed = st.viewer.isEmbed
  ∧ st'.viewer.pagesCount = st.viewer.pagesCount
  ∧ st'.highlightedAnnotations = st.highlightedAnnotations
  ∧ st'.eventRegs = st.eventRegs
  ∧ st'.resolvedRegs = st.resolvedRegs
  ∧ st'.detachedEls = st.detachedEls
  ∧ st'.notices = st.notices
  ∧ st'.loggedErrors = st.loggedErrors

theorem clearFrame_refl (st : HState) : clearFrame st st :=
  ⟨rfl, rfl, rfl, rfl, rfl, rfl, rfl, rfl, rfl⟩

theorem clearFrame_trans {a b c : HState} (h1 : clearFrame a b) (h2 : clearFrame b c) :
    clearFrame a c := by
  obtain ⟨x1, x2, x3, x4, x5, x6, x7, x8, x9⟩ := h1
  obtain ⟨y1, y2, y3, y4, y5, y6, y7, y8, y9⟩ := h2
  exact ⟨y1.trans x1, y2.trans x2, y3.trans x3, y4.trans x4, y5.trans x5,
    y6.trans x6, y7.trans x7, y8.trans x8, y9.trans x9⟩

theorem clearGo_frame (entries : List (JsInt × JsInt)) (st : HState) :
    (∀ st', clearTextHighlightGo entries st = .ok st' → clearFrame st st')
    ∧ (∀ st' e, clearTextHighlightGo entries st = .error (st', e) → clearFrame st st') := by
  induction entries generalizing st with
  | nil =>
    constructor
    · intro st' h
      rw [clearTextHighlightGo] at h
      cases h
      exact ⟨rfl, rfl, rfl, rfl, rfl, rfl, rfl, rfl, rfl⟩
    · intro st' e h
      rw [clearTextHighlightGo] at h
      cases h
  | cons pi rest ih =>
    obtain ⟨page, index⟩ := pi
    constructor
    · intro st' h
      rw [clearTextHighlightGo] at h
      repeat' split at h
      all_goals try (cases h <;> exact clearFrame_refl st)
      all_goals
        refine clearFrame_trans ?_ ((ih _).1 st' h)
      all_goals exact ⟨rfl, rfl, rfl, rfl, rfl, rfl, rfl, rfl, rfl⟩
    · intro st' e h
      rw [clearTextHighlightGo] at h
      repeat' split at h
      all_goals try (cases h <;> exact clearFrame_refl st)
      all_goals
        refine clearFrame_trans ?_ ((ih _).2 st' e h)
      all_goals exact ⟨rfl, rfl, rfl, rfl, rfl, rfl, rfl, rfl, rfl⟩

theorem underscore_hb_frame (env : Env) (st : HState) :
    (∀ st1, _highlightBacklinks env st = .ok st1 →
      st1.notices = st.notices ∧ st1.loggedErrors = st.loggedErrors
      ∧ st1.resolvedRegs = st.resolvedRegs
      ∧ st1.highlightedAnnotations = st.highlightedAnnotations
      ∧ st1.detachedEls = st.detachedEls)
    ∧ (∀ st1 e, _highlightBacklinks env st = .error (st1, e) →
      st1.notices = st.notices ∧ st1.loggedErrors = st.loggedErrors
      ∧ st1.resolvedRegs = st.resolvedRegs
      ∧ st1.highlightedAnnotations = st.highlightedAnnotations
      ∧ st1.detachedEls = st.detachedEls) := by
  constructor
  · intro st1 h
    unfold _highlightBacklinks at h
    split at h
    · cases h
      exact ⟨rfl, rfl, rfl, rfl, rfl⟩
    · next f hf =>
      split at h
      · cases h
        exact ⟨rfl, rfl, rfl, rfl, rfl⟩
      · split at h
        · cases h
          exact ⟨rfl, rfl, rfl, rfl, rfl⟩
        · split at h
          · cases h
          · next st2 heq =>
            cases h
            rw [clearTextHighlight] at heq
            have hfr := (clearGo_frame _ _).1 st2 heq
            exact ⟨hfr.2.2.2.2.2.2.2.1, hfr.2.2.2.2.2.2.2.2, hfr.2.2.2.2.2.1,
              hfr.2.2.2.1, hfr.2.2.2.2.2.2.1⟩
  · intro st1 e h
    unfold _highlightBacklinks at h
    split at h
    · cases h
    · next f hf =>
      split at h
      · cases h
      · split at h
        · cases h
        · split at h
          · next r heq =>
            cases h
            rw [clearTextHighlight] at heq
            have hfr := (clearGo_frame _ _).2 st1 e heq
            exact ⟨hfr.2.2.2.2.2.2.2.1, hfr.2.2.2.2.2.2.2.2, hfr.2.2.2.2.2.1,
              hfr.2.2.2.1, hfr.2.2.2.2.2.2.1⟩
          · cases h

/-- C3: every exception thrown inside `_highlightBacklinks` is caught by
`highlightBacklinks`, which surfaces exactly one transient notice and one
logged error and returns normally (no rethrow, no retry: its result is fully
determined by the single run of the routine); when no exception is thrown, no
notice and no logged error is produced. -/
theorem highlightBacklinks_try_catch (env : Env) (st : HState) :
    (∀ st1 e, _highlightBacklinks env st = .error (st1, e) →
      highlightBacklinks env st =
        { st1 with
          notices := st.notices ++
            [env.manifestName ++ ": Failed to highlight backlinks. Reopen the file to retry."]
          loggedErrors := st.loggedErrors ++ [e] })
    ∧ (∀ st1, _highlightBacklinks env st = .ok st1 →
      highlightBacklinks env st = st1
      ∧ st1.notices = st.notices ∧ st1.loggedErrors = st.loggedErrors) := by
  constructor
  · intro st1 e h
    have hf := (underscore_hb_frame env st).2 st1 e h
    have hred : highlightBacklinks env st =
        { st1 with
          notices := st1.notices ++
            [env.manifestName ++ ": Failed to highlight backlinks. Reopen the file to retry."]
          loggedErrors := st1.loggedErrors ++ [e] } := by
      unfold highlightBacklinks
      rw [h]
    rw [hred, hf.1, hf.2.1]
  · intro st1 h
    have hf := (underscore_hb_frame env st).1 st1 h
    have hred : highlightBacklinks env st = st1 := by
      unfold highlightBacklinks
      rw [h]
    exact ⟨hred, hf.1, hf.2.1⟩

def tlEmpty : TextLayer := { textDivs := [], textContentItems := [] }

def pvTLEmpty : PageView :=
  { textLayer := some tlEmpty, annotationLayer := none, loaded := true }

def envOn : Env :=
  { manifestName := "PDF++", highlightBacklinksSetting := true, backlinkDict := fun _ => [] }

/-- A state with a stale recorded highlight whose index is out of range for
the (empty) text layer: `clearTextHighlight` throws inside
`_highlightBacklinks`. -/
def stC3 : HState :=
  { stBase with
    viewer := { isEmbed := false, pagesCount := 1, pdfViewer := some [pvTLEmpty] }
    highlightedTexts := [(some 1, some 0)] }

theorem highlightBacklinks_try_catch_witness :
    highlightBacklinks envOn stC3 =
      { stC3 with
        notices := ["PDF++: Failed to highlight backlinks. Reopen the file to retry."]
        loggedErrors := [JsErr.typeError] } :=
  ((highlightBacklinks_try_catch envOn stC3).1
      { stC3 with backlinks := [] } JsErr.typeError (by decide)).trans (by decide)

/- ======================= claim C4 ======================= -/

/-- Invariant of freshly built backlink maps: every selection entry still has
`annotationEls = null`. -/
def allSelNone (m : BacklinkMap) : Prop :=
  ∀ kv ∈ m, ∀ b ∈ kv.2.selection, b.annotationEls = none

theorem allSelNone_nil : allSelNone [] := by
  intro kv hkv
  cases hkv

theorem allSelNone_recPushSel (m : BacklinkMap) (page : JsInt) (e : SelBacklink)
    (hm : allSelNone m) (he : e.annotationEls = none) :
    allSelNone (recPushSel m page e) := by
  induction m with
  | nil =>
    intro kv hkv b hb
    rw [recPushSel] at hkv
    rcases List.mem_singleton.mp hkv with rfl
    rcases List.mem_singleton.mp hb with rfl
    exact he
  | cons kv0 rest ih =>
    intro kv hkv b hb
    rw [recPushSel] at hkv
    by_cases hk : kv0.1 == page
    · rw [if_pos hk] at hkv
      rcases List.mem_cons.mp hkv with rfl | hmem
      · rcases List.mem_append.mp hb with hb1 | hb2
        · exact hm kv0 (List.mem_cons_self _ _) b hb1
        · rcases List.mem_singleton.mp hb2 with rfl
          exact he
      · exact hm kv (List.mem_cons_of_mem _ hmem) b hb
    · rw [if_neg hk] at hkv
      rcases List.mem_cons.mp hkv with rfl | hmem
      · exact hm kv (List.mem_cons_self _ _) b hb
      · exact ih (fun kv2 h2 => hm kv2 (List.mem_cons_of_mem _ h2)) kv hmem b hb

theorem allSelNone_recPushAnn (m : BacklinkMap) (page : JsInt) (e : AnnBacklink)
    (hm : allSelNone m) : allSelNone (recPushAnn m page e) := by
  induction m with
  | nil =>
    intro kv hkv b hb
    rw [recPushAnn] at hkv
    rcases List.mem_singleton.mp hkv with rfl
    cases hb
  | cons kv0 rest ih =>
    intro kv hkv b hb
    rw [recPushAnn] at hkv
    by_cases hk : kv0.1 == page
    · rw [if_pos hk] at hkv
      rcases List.mem_cons.mp hkv with rfl | hmem
      · exact hm kv0 (List.mem_cons_self _ _) b hb
      · exact hm kv (List.mem_cons_of_mem _ hmem) b hb
    · rw [if_neg hk] at hkv
      rcases List.mem_cons.mp hkv with rfl | hmem
      · exact hm kv (List.mem_cons_self _ _) b hb
      · exact ih (fun kv2 h2 => hm kv2 (List.mem_cons_of_mem _ h2)) kv hmem b hb

theorem allSelNone_step (sourcePath : String) (m : BacklinkMap) (link : Link)
    (hm : allSelNone m) : allSelNone (setBacklinksStep sourcePath m link) := by
  simp only [setBacklinksStep]
  split
  · split
    · exact allSelNone_recPushSel _ _ _ hm rfl
    · exact hm
  · split
    · exact allSelNone_recPushAnn _ _ _ hm
    · exact hm

theorem allSelNone_foldLinks (sourcePath : String) (links : List Link)
    (m : BacklinkMap) (hm : allSelNone m) :
    allSelNone (links.foldl (setBacklinksStep sourcePath) m) := by
  induction links generalizing m with
  | nil => exact hm
  | cons l rest ih =>
    rw [List.foldl_cons]
    exact ih _ (allSelNone_step sourcePath m l hm)

theorem allSelNone_buildBacklinks (dict : List (String × List Link)) :
    allSelNone (buildBacklinks dict) := by
  rw [buildBacklinks]
  have main : ∀ (d : List (String × List Link)) (m : BacklinkMap), allSelNone m →
      allSelNone (d.foldl (fun m kv => kv.2.foldl (setBacklinksStep kv.1) m) m) := by
    intro d
    induction d with
    | nil => exact fun m hm => hm
    | cons kv rest ih =>
      intro m hm
      rw [List.foldl_cons]
      exact ih _ (allSelNone_foldLinks kv.1 kv.2 m hm)
  exact main dict [] allSelNone_nil

theorem selMapNone_id (sel : List SelBacklink)
    (h : ∀ b ∈ sel, b.annotationEls = none) :
    sel.map (fun b => { b with annotationEls := none }) = sel := by
  induction sel with
  | nil => rfl
  | cons b rest ih =>
    rw [List.map_cons]
    have hb := h b (List.mem_cons_self _ _)
    have hbeq : ({ b with annotationEls := none } : SelBacklink) = b := by
      cases b
      subst hb
      rfl
    rw [hbeq, ih (fun b2 h2 => h b2 (List.mem_cons_of_mem _ h2))]

theorem recNullifySel_id (m : BacklinkMap) (page : JsInt)
    (hm : allSelNone m) : recNullifySel m page = m := by
  rw [recNullifySel]
  induction m with
  | nil => rfl
  | cons kv rest ih =>
    rw [List.map_cons]
    have hrest : rest.map _ = rest :=
      ih (fun kv2 h2 => hm kv2 (List.mem_cons_of_mem _ h2))
    by_cases hk : kv.1 == page
    · rw [if_pos hk]
      have hsel := selMapNone_id kv.2.selection (hm kv (List.mem_cons_self _ _))
      rw [hsel, hrest]
    · rw [if_neg hk]
      rw [hrest]

theorem clearGo_backlinks (l : List (JsInt × JsInt)) (st : HState)
    (hm : allSelNone st.backlinks) :
    (∀ st', clearTextHighlightGo l st = .ok st' → st'.backlinks = st.backlinks)
    ∧ (∀ st' e, clearTextHighlightGo l st = .error (st', e) → st'.backlinks = st.backlinks) := by
  induction l generalizing st with
  | nil =>
    refine ⟨fun st' h => ?_, fun st' e h => ?_⟩
    · rw [clearTextHighlightGo] at h
      cases h
      rfl
    · rw [clearTextHighlightGo] at h
      cases h
  | cons pi rest ih =>
    obtain ⟨page, index⟩ := pi
    have hnul : recNullifySel st.backlinks page = st.backlinks :=
      recNullifySel_id _ _ hm
    constructor
    · intro st' h
      rw [clearTextHighlightGo] at h
      repeat' split at h
      all_goals try (cases h <;> rfl)
      all_goals
        exact ((ih _ (hnul.symm ▸ hm)).1 st' h).trans hnul
    · intro st' e h
      rw [clearTextHighlightGo] at h
      repeat' split at h
      all_goals try (cases h <;> rfl)
      all_goals
        exact ((ih _ (hnul.symm ▸ hm)).2 st' e h).trans hnul

theorem highlightBacklinks_resolvedRegs (env : Env) (st : HState) :
    (highlightBacklinks env st).resolvedRegs = st.resolvedRegs := by
  unfold highlightBacklinks
  cases h : _highlightBacklinks env st with
  | ok st1 => exact ((underscore_hb_frame env st).1 st1 h).2.2.1
  | error r =>
    obtain ⟨st1, e⟩ := r
    exact ((underscore_hb_frame env st).2 st1 e h).2.2.1

/-- C4 (amended): each invocation of `setBacklinks` discards the previous map
entirely, so its result depends only on the metadata cache; for a non-embed
viewer, `onload` registers a metadata-resolution handler, each resolution
event re-runs `highlightBacklinks`, and — whenever the viewer's file is set,
the viewer is not an embed, and the `highlightBacklinks` setting is on — the
backlinks map after the handler runs is exactly the map rebuilt from the
current metadata cache. -/
theorem setBacklinks_rebuild (env : Env) (file : String) (st st2 : HState) :
    ((setBacklinks env file st).backlinks = (setBacklinks env file st2).backlinks)
    ∧ (st.viewer.isEmbed = false → (onload env st).resolvedRegs = st.resolvedRegs + 1)
    ∧ (st.resolvedRegs = 1 → dispatchResolved env st = highlightBacklinks env st)
    ∧ (st.viewer.isEmbed = false → st.file = some file →
       env.highlightBacklinksSetting = true →
       (highlightBacklinks env st).backlinks = buildBacklinks (env.backlinkDict file)) := by
  refine ⟨rfl, ?_, ?_, ?_⟩
  · intro hembed
    unfold onload
    rw [hembed]
    simp only [Bool.not_false, if_true]
    rw [highlightBacklinks_resolvedRegs]
  · intro hregs
    unfold dispatchResolved
    rw [hregs]
    rfl
  · intro hembed hfile hset
    have hno : allSelNone (setBacklinks env file st).backlinks :=
      allSelNone_buildBacklinks (env.backlinkDict file)
    unfold highlightBacklinks
    cases hr : _highlightBacklinks env st with
    | ok st1 =>
      unfold _highlightBacklinks at hr
      rw [hfile] at hr
      simp only [hembed, hset, Bool.not_true, Bool.false_eq_true, if_false] at hr
      cases hc : clearTextHighlight (setBacklinks env file st) with
      | error r =>
        rw [hc] at hr
        cases hr
      | ok stc =>
        rw [hc] at hr
        cases hr
        exact (clearGo_backlinks _ _ hno).1 stc hc
    | error r =>
      obtain ⟨st1, e⟩ := r
      unfold _highlightBacklinks at hr
      rw [hfile] at hr
      simp only [hembed, hset, Bool.not_true, Bool.false_eq_true, if_false] at hr
      cases hc : clearTextHighlight (setBacklinks env file st) with
      | error r2 =>
        rw [hc] at hr
        cases hr
        exact (clearGo_backlinks _ _ hno).2 st1 e hc
      | ok stc =>
        rw [hc] at hr
        cases hr

theorem setBacklinks_rebuild_witness :
    (highlightBacklinks envOn stBase).backlinks = []
    ∧ (onload envOn stBase).resolvedRegs = 1 := by
  constructor
  · exact (setBacklinks_rebuild envOn "file.pdf" stBase stBase).2.2.2 rfl rfl rfl
  · exact (setBacklinks_rebuild envOn "file.pdf" stBase stBase).2.1 rfl

/-- A state for an embedded viewer carrying a stale nonempty backlinks map:
neither `onload` nor a later metadata-resolution event rebuilds it. -/
def stC4 : HState :=
  { stBase with
    viewer := { isEmbed := true, pagesCount := 1, pdfViewer := some [pv0] }
    backlinks := [(some 1, ⟨[], [⟨"n.md", ⟨[]⟩, some 1, "x", none, none⟩]⟩)] }

/-- C4 counterexample: for an embed viewer, `onload` registers no
metadata-resolution handler, so firing the `resolved` event leaves the stale
map in place instead of rebuilding it from the (here empty) metadata cache:
the claim's "re-invokes this rebuild on every metadata-resolution event" fails
as stated. -/
theorem resolved_rebuild_cex :
    onload envOn stC4 = stC4
    ∧ dispatchResolved envOn (onload envOn stC4) = stC4
    ∧ stC4.backlinks ≠ buildBacklinks (envOn.backlinkDict "file.pdf") :=
  ⟨by decide, by decide, by decide⟩

/- ======================= claim C2 ======================= -/

def elemHello : Elem := ⟨1, [Chunk.plain "hello"], "", none⟩

def tlC2 : TextLayer :=
  { textDivs := [elemHello], textContentItems := [⟨"hello"⟩] }

def pvC2 : PageView :=
  { textLayer := some tlC2, annotationLayer := none, loaded := true }

/-- A loaded one-page viewer whose text layer has a single div. -/
def stC2 : HState :=
  { stBase with
    viewer := { isEmbed := false, pagesCount := 1, pdfViewer := some [pvC2] } }

/-- C2 counterexample: with the page number in range, `highlightText` performs
`textDivs[5].textContent = ""` on a one-element `textDivs` array — an access
through an out-of-bounds index that throws — because the begin/end text-div
indices are never bounds-checked. -/
theorem unchecked_index_cex :
    highlightText (some 1) (some 5) (some 0) (some 5) (some 1) none stC2
      = .error (stC2, .typeError) := by
  decide

theorem highlightAnnotEl_cases (pg : JsInt) (id : String) (st : HState) :
    highlightAnnotEl pg id st = st
    ∨ highlightAnnotEl pg id st =
      { st with highlightedAnnotations := mapSet st.highlightedAnnotations id rectElem } := by
  unfold highlightAnnotEl
  repeat' split
  all_goals first | (left; rfl) | (right; rfl)

/-- C2 (amended): the page number is bounds-checked in `highlightText`,
`highlightAnnotation` and `processAnnotation` (an out-of-range page makes each
a no-op); `highlightAnnotation` and `processAnnotation` reach the DOM only
through id lookups, so they never index an array out of bounds (either no-op
or registering the one bounding rect); but `highlightText` does not check its
begin/end text-div indices against the text layer's arrays, and an
out-of-range index makes it dereference a missing entry (a thrown
`TypeError`), as the concrete run in the last conjunct shows. -/
theorem bounds_checks_amended (pg b bo e eo : JsInt) (c : Option String)
    (id : String) (st : HState) :
    ((jsLt pg (some 1) || jsGt pg (some st.viewer.pagesCount)) = true →
      highlightText pg b bo e eo c st = .ok st
      ∧ highlightAnnotEl pg id st = st
      ∧ processAnnotEl pg id st = none)
    ∧ (highlightAnnotEl pg id st = st
       ∨ highlightAnnotEl pg id st =
         { st with highlightedAnnotations := mapSet st.highlightedAnnotations id rectElem })
    ∧ highlightText (some 1) (some 5) (some 0) (some 5) (some 1) none stC2
        = .error (stC2, .typeError) := by
  refine ⟨?_, highlightAnnotEl_cases pg id st, by decide⟩
  intro h
  refine ⟨?_, ?_, ?_⟩
  · unfold highlightText
    rw [h]
    rfl
  · unfold highlightAnnotEl
    rw [h]
    rfl
  · unfold processAnnotEl
    rw [h]
    rfl

theorem bounds_checks_amended_witness :
    highlightText (some 0) (some 0) (some 0) (some 0) (some 0) none stC2 = .ok stC2
    ∧ processAnnotEl (some 0) "a" stC2 = none := by
  have h := (bounds_checks_amended (some 0) (some 0) (some 0) (some 0) (some 0)
    none "a" stC2).1 (by decide)
  exact ⟨h.1, h.2.2⟩

/- ================= shared machinery for claims C5 and C6 ================= -/

/-- The text layer reachable from a recorded page number
(`viewer.pdfViewer?.getPageView(page - 1)?.textLayer`). -/
def pageTL (st : HState) (page : JsInt) : Option TextLayer :=
  match st.viewer.pdfViewer with
  | none => none
  | some pages =>
    match arrGet pages (jsSub page (some 1)) with
    | none => none
    | some pv => pv.textLayer

/-- A recorded highlight entry whose page has a text layer and whose index is
in range of both `textDivs` and `textContentItems`. -/
def entryOK (st : HState) (pi : JsInt × JsInt) : Bool :=
  match pageTL st pi.1 with
  | none => false
  | some tl => validIdx tl.textDivs.length pi.2 && validIdx tl.textContentItems.length pi.2

/-- The text div recorded at `pi` currently shows exactly the original string
of `textContentItems` at the same index. -/
def entryRestored (st : HState) (pi : JsInt × JsInt) : Bool :=
  match pageTL st pi.1 with
  | none => false
  | some tl =>
    match arrGet tl.textDivs pi.2, arrGet tl.textContentItems pi.2 with
    | some td, some item => elemText td == item.str
    | _, _ => false

theorem pageTL_eq (st : HState) (pages : List PageView) (pv : PageView) (page : JsInt)
    (hpv : st.viewer.pdfViewer = some pages)
    (hpg : arrGet pages (jsSub page (some 1)) = some pv) :
    pageTL st page = pv.textLayer := by
  unfold pageTL
  rw [hpv]
  simp only [hpg]

theorem entryOK_spec (st : HState) (pi : JsInt × JsInt) (h : entryOK st pi = true) :
    ∃ pages pv tl, st.viewer.pdfViewer = some pages
      ∧ arrGet pages (jsSub pi.1 (some 1)) = some pv
      ∧ pv.textLayer = some tl
      ∧ validIdx tl.textDivs.length pi.2 = true
      ∧ validIdx tl.textContentItems.length pi.2 = true := by
  unfold entryOK pageTL at h
  cases hpv : st.viewer.pdfViewer with
  | none => rw [hpv] at h; cases h
  | some pages =>
    rw [hpv] at h
    cases hpg : arrGet pages (jsSub pi.1 (some 1)) with
    | none => simp only [hpg] at h; cases h
    | some pv =>
      simp only [hpg] at h
      cases htl : pv.textLayer with
      | none => rw [htl] at h; cases h
      | some tl =>
        rw [htl] at h
        simp only [Bool.and_eq_true] at h
        exact ⟨pages, pv, tl, rfl, hpg, htl, h.1, h.2⟩

/-- The restored text div written back by one `clearTextHighlight` step. -/
def restoredDiv (td : Elem) (item : TextItem) : Elem :=
  ⟨td.nodeType, [Chunk.plain item.str],
    (if hasClassTok td.className "textLayerNode" then "textLayerNode" else ""),
    td.highlightColor⟩

/-- The state after one loop step of `clearTextHighlight` restoring the entry
`(page, index)`. -/
def restoreAt (st : HState) (pages : List PageView) (pv : PageView) (tl : TextLayer)
    (page index : JsInt) (td : Elem) (item : TextItem) : HState :=
  let tl' : TextLayer := { tl with textDivs := arrSet tl.textDivs index (restoredDiv td item) }
  let pages' := arrSet pages (jsSub page (some 1)) { pv with textLayer := some tl' }
  { st with
    viewer := { st.viewer with pdfViewer := some pages' }
    backlinks := recNullifySel st.backlinks page }

theorem jsSub_ne_of_ne (q : JsInt) (p : Int) (hq : q ≠ some p) :
    jsSub q (some 1) ≠ jsSub (some p) (some 1) := by
  cases q with
  | none => simp [jsSub]
  | some m =>
    simp only [jsSub, ne_eq, Option.some.injEq]
    intro hc
    exact hq (by rw [show m = p by omega])

theorem pageTL_restoreAt_self (st : HState) (pages : List PageView) (pv : PageView)
    (tl : TextLayer) (p : Int) (index : JsInt) (td : Elem) (item : TextItem)
    (hpg : arrGet pages (jsSub (some p) (some 1)) = some pv) :
    pageTL (restoreAt st pages pv tl (some p) index td item) (some p)
      = some { tl with textDivs := arrSet tl.textDivs index (restoredDiv td item) } := by
  unfold pageTL restoreAt
  simp only [arrGet_arrSet_self _ _ _ _ hpg]

theorem pageTL_restoreAt_ne (st : HState) (pages : List PageView) (pv : PageView)
    (tl : TextLayer) (p : Int) (index : JsInt) (td : Elem) (item : TextItem)
    (hpv : st.viewer.pdfViewer = some pages)
    (q : JsInt) (hq : q ≠ some p) :
    pageTL (restoreAt st pages pv tl (some p) index td item) q = pageTL st q := by
  unfold pageTL restoreAt
  rw [hpv]
  simp only [arrGet_arrSet_ne _ _ _ _ (jsSub_ne_of_ne q p hq).symm]

theorem string_empty_append (s : String) : "" ++ s = s := rfl

theorem elemText_restoredDiv (td : Elem) (item : TextItem) :
    elemText (restoredDiv td item) = item.str := by
  simp only [elemText, restoredDiv, chunkText, List.map_cons, List.map_nil,
    List.foldl_cons, List.foldl_nil]
  exact string_empty_append item.str

theorem entryOK_restoreAt (st : HState) (pages : List PageView) (pv : PageView)
    (tl : TextLayer) (p : Int) (index : JsInt) (td : Elem) (item : TextItem)
    (hpv : st.viewer.pdfViewer = some pages)
    (hpg : arrGet pages (jsSub (some p) (some 1)) = some pv)
    (htl : pv.textLayer = some tl)
    (pi : JsInt × JsInt) (h : entryOK st pi = true) :
    entryOK (restoreAt st pages pv tl (some p) index td item) pi = true := by
  by_cases hq : pi.1 = some p
  · unfold entryOK
    simp only [hq, pageTL_restoreAt_self st pages pv tl p index td item hpg]
    unfold entryOK at h
    simp only [hq, pageTL_eq st pages pv (some p) hpv hpg, htl] at h
    simpa [arrSet_length] using h
  · unfold entryOK
    rw [pageTL_restoreAt_ne st pages pv tl p index td item hpv pi.1 hq]
    unfold entryOK at h
    exact h

theorem entryRestored_restoreAt (st : HState) (pages : List PageView) (pv : PageView)
    (tl : TextLayer) (p : Int) (index : JsInt) (td : Elem) (item : TextItem)
    (hpv : st.viewer.pdfViewer = some pages)
    (hpg : arrGet pages (jsSub (some p) (some 1)) = some pv)
    (htl : pv.textLayer = some tl)
    (htd : arrGet tl.textDivs index = some td)
    (hit : arrGet tl.textContentItems index = some item)
    (pi : JsInt × JsInt)
    (hpi : pi = (some p, index) ∨ entryRestored st pi = true) :
    entryRestored (restoreAt st pages pv tl (some p) index td item) pi = true := by
  by_cases hq : pi.1 = some p
  · unfold entryRestored
    simp only [hq, pageTL_restoreAt_self st pages pv tl p index td item hpg]
    by_cases hidx : pi.2 = index
    · simp only [hidx, arrGet_arrSet_self _ _ _ _ htd, hit, elemText_restoredDiv,
        beq_self_eq_true]
    · have hne : index ≠ pi.2 := fun hc => hidx hc.symm
      simp only [arrGet_arrSet_ne _ _ _ _ hne]
      rcases hpi with rfl | hr
      · exact absurd rfl hidx
      · unfold entryRestored at hr
        simp only [hq, pageTL_eq st pages pv (some p) hpv hpg, htl] at hr
        exact hr
  · unfold entryRestored
    rw [pageTL_restoreAt_ne st pages pv tl p index td item hpv pi.1 hq]
    rcases hpi with rfl | hr
    · exact absurd rfl hq
    · unfold entryRestored at hr
      exact hr

theorem clearGo_ok_of_valid (l : List (JsInt × JsInt)) (st : HState)
    (hv : ∀ pi ∈ l, entryOK st pi = true) :
    ∃ st', clearTextHighlightGo l st = .ok st'
      ∧ st'.highlightedTexts = []
      ∧ (∀ pi, (entryRestored st pi = true ∨ pi ∈ l) → entryRestored st' pi = true) := by
  induction l generalizing st with
  | nil =>
    refine ⟨{ st with highlightedTexts := [] }, ?_, rfl, ?_⟩
    · rw [clearTextHighlightGo]
    · intro pi h
      rcases h with h | h
      · exact h
      · cases h
  | cons pi0 rest ih =>
    obtain ⟨page, index⟩ := pi0
    have h0 := hv (page, index) (List.mem_cons_self _ _)
    obtain ⟨pages, pv, tl, hpv, hpg, htl, hvd, hvi⟩ := entryOK_spec st (page, index) h0
    cases page with
    | none =>
      rw [show jsSub none (some 1) = none from rfl] at hpg
      cases hpg
    | some p =>
      have htd : ∃ td, arrGet tl.textDivs index = some td := by
        have hs := arrGet_isSome tl.textDivs index
        rw [hvd] at hs
        exact Option.isSome_iff_exists.mp hs
      obtain ⟨td, htd⟩ := htd
      have hit : ∃ item, arrGet tl.textContentItems index = some item := by
        have hs := arrGet_isSome tl.textContentItems index
        rw [hvi] at hs
        exact Option.isSome_iff_exists.mp hs
      obtain ⟨item, hit⟩ := hit
      have hstep : clearTextHighlightGo ((some p, index) :: rest) st
          = clearTextHighlightGo rest (restoreAt st pages pv tl (some p) index td item) := by
        rw [clearTextHighlightGo]
        simp only [hpv, hpg, htl, htd, hit]
        rfl
      have hv' : ∀ pi ∈ rest,
          entryOK (restoreAt st pages pv tl (some p) index td item) pi = true :=
        fun pi hm =>
          entryOK_restoreAt st pages pv tl p index td item hpv hpg htl pi
            (hv pi (List.mem_cons_of_mem _ hm))
      obtain ⟨st', hok, htexts, hres⟩ := ih _ hv'
      refine ⟨st', by rw [hstep]; exact hok, htexts, ?_⟩
      intro pi hpi
      apply hres pi
      rcases hpi with h | h
      · exact Or.inl
          (entryRestored_restoreAt st pages pv tl p index td item hpv hpg htl htd hit pi
            (Or.inr h))
      · rcases List.mem_cons.mp h with rfl | hm
        · exact Or.inl
            (entryRestored_restoreAt st pages pv tl p index td item hpv hpg htl htd hit _
              (Or.inl rfl))
        · exact Or.inr hm

/- ======================= claim C5 ======================= -/

theorem clearAnnFold (m : List (String × Elem)) :
    ∀ st : HState, st.highlightedAnnotations = m →
    ((m.map (fun kv => kv.1)).foldl (fun s id => clearAnnotationHighlight id s) st).highlightedAnnotations = []
    ∧ ((m.map (fun kv => kv.1)).foldl (fun s id => clearAnnotationHighlight id s) st).detachedEls
        = st.detachedEls ++ m.map (fun kv => kv.2)
    ∧ ((m.map (fun kv => kv.1)).foldl (fun s id => clearAnnotationHighlight id s) st).highlightedTexts
        = st.highlightedTexts := by
  induction m with
  | nil =>
    intro st h
    exact ⟨h, by simp, rfl⟩
  | cons kv rest ih =>
    intro st h
    have hstep : clearAnnotationHighlight kv.1 st =
        { st with
          detachedEls := st.detachedEls ++ [kv.2]
          highlightedAnnotations := rest } := by
      unfold clearAnnotationHighlight
      rw [h]
      simp [List.find?, mapDelete]
    rw [List.map_cons, List.foldl_cons, hstep]
    have hres := ih { st with
      detachedEls := st.detachedEls ++ [kv.2]
      highlightedAnnotations := rest } rfl
    refine ⟨hres.1, ?_, hres.2.2⟩
    rw [hres.2.1]
    simp

/-- C5 (amended): on teardown every registered annotation highlight is cleaned
up — `highlightedAnnotations` ends empty with each previously registered
element detached by `clearAnnotationHighlight` — provided `clearTextHighlight`
returns (it can throw on a stale out-of-range index, aborting `onunload`);
`highlightedTexts` is emptied only when every recorded page's text layer is
present and every recorded index is in range — otherwise the loop's early
`return` (or throw) leaves the list non-empty, as the counterexample shows. -/
theorem onunload_cleanup (st : HState) :
    (∀ st', onunload st = .ok st' →
      st'.highlightedAnnotations = []
      ∧ st'.detachedEls = st.detachedEls ++ st.highlightedAnnotations.map (fun kv => kv.2))
    ∧ ((∀ pi ∈ st.highlightedTexts, entryOK st pi = true) →
      ∃ st', onunload st = .ok st'
        ∧ st'.highlightedTexts = []
        ∧ st'.highlightedAnnotations = []
        ∧ st'.detachedEls = st.detachedEls ++ st.highlightedAnnotations.map (fun kv => kv.2)) := by
  constructor
  · intro st' h
    unfold onunload at h
    cases hc : clearTextHighlight st with
    | error r =>
      rw [hc] at h
      cases h
    | ok st1 =>
      rw [hc] at h
      cases h
      have hfr := (clearGo_frame st.highlightedTexts st).1 st1 hc
      have hfold := clearAnnFold st1.highlightedAnnotations st1 rfl
      refine ⟨hfold.1, ?_⟩
      rw [hfold.2.1, hfr.2.2.2.2.2.2.1, hfr.2.2.2.1]
  · intro hv
    obtain ⟨st1, hok, htexts, hres⟩ := clearGo_ok_of_valid st.highlightedTexts st hv
    have hok' : clearTextHighlight st = .ok st1 := hok
    have hfr := (clearGo_frame st.highlightedTexts st).1 st1 hok
    have hfold := clearAnnFold st1.highlightedAnnotations st1 rfl
    refine ⟨_, ?_, ?_, hfold.1, ?_⟩
    · unfold onunload
      rw [hok']
    · rw [hfold.2.2, htexts]
    · rw [hfold.2.1, hfr.2.2.2.2.2.2.1, hfr.2.2.2.1]

/-- A non-embed viewer holding one annotation highlight and one recorded text
highlight on a page whose text layer is missing (e.g. scrolled out of the
viewport). -/
def stC5 : HState :=
  { stBase with
    viewer := { isEmbed := false, pagesCount := 1, pdfViewer := some [pv0] }
    highlightedTexts := [(some 1, some 0)]
    highlightedAnnotations := [("a", elemHello)] }

/-- C5 counterexample: `onunload` returns normally but `highlightedTexts` is
not empty afterwards — `clearTextHighlight` hit the `return` for the missing
text layer before clearing the list — refuting the claim that after teardown
the `highlightedTexts` list is always empty. -/
theorem onunload_cleanup_cex :
    onunload stC5 =
      .ok { stC5 with detachedEls := [elemHello], highlightedAnnotations := [] }
    ∧ ({ stC5 with detachedEls := [elemHello], highlightedAnnotations := [] } : HState).highlightedTexts
        ≠ [] :=
  ⟨by decide, by decide⟩

/-- A state like `stC5` but with the page's text layer present and the
recorded index in range. -/
def stC5w : HState :=
  { stC2 with
    highlightedTexts := [(some 1, some 0)]
    highlightedAnnotations := [("a", elemHello)] }

theorem onunload_cleanup_witness :
    onunload stC5w =
      .ok { stC5w with
            highlightedTexts := []
            highlightedAnnotations := []
            detachedEls := [elemHello] }
    ∧ ({ stC5w with
         highlightedTexts := []
         highlightedAnnotations := []
         detachedEls := [elemHello] } : HState).highlightedAnnotations = [] := by
  have h := (onunload_cleanup stC5w).1
    { stC5w with
      highlightedTexts := []
      highlightedAnnotations := []
      detachedEls := [elemHello] } (by decide)
  exact ⟨by decide, h.1⟩

/- ======================= claim C6 ======================= -/

theorem validIdx_of_arrGet {α : Type} (l : List α) (i : JsInt) (x : α)
    (hx : arrGet l i = some x) : validIdx l.length i = true := by
  have h2 := arrGet_isSome l i
  rw [hx] at h2
  exact h2.symm

theorem dWT_ok (pg : JsInt) (c : Option String) (items : List TextItem)
    (idx fr : JsInt) (to_ : Option JsInt) (cls : Option String) (s s' : TLState)
    (h : divideAndWrapText pg c items idx fr to_ cls s = .ok s') :
    s'.highlightedTexts = s.highlightedTexts ++ [(pg, idx)]
    ∧ s'.textDivs.length = s.textDivs.length
    ∧ validIdx s.textDivs.length idx = true
    ∧ validIdx items.length idx = true := by
  unfold divideAndWrapText at h
  dsimp only [] at h
  cases htd : arrGet s.textDivs idx with
  | none =>
    rw [htd] at h
    cases h
  | some textDiv0 =>
    rw [htd] at h
    dsimp only [] at h
    cases hit : arrGet items idx with
    | none =>
      rw [hit] at h
      cases h
    | some item =>
      rw [hit] at h
      cases hw : textDiv0.nodeType == 3 with
      | true =>
        simp only [hw, reduceIte] at h
        cases hc2 : jsTruthyStr cls with
        | true =>
          simp only [hc2, reduceIte] at h
          cases h
          exact ⟨rfl, by simp [arrSet_length],
            validIdx_of_arrGet _ _ _ htd, validIdx_of_arrGet _ _ _ hit⟩
        | false =>
          simp only [hc2, Bool.false_eq_true, if_false] at h
          cases h
          exact ⟨rfl, by simp [arrSet_length],
            validIdx_of_arrGet _ _ _ htd, validIdx_of_arrGet _ _ _ hit⟩
      | false =>
        simp only [hw, Bool.false_eq_true, if_false] at h
        cases hc2 : jsTruthyStr cls with
        | true =>
          simp only [hc2, reduceIte] at h
          cases h
          exact ⟨rfl, by simp [arrSet_length],
            validIdx_of_arrGet _ _ _ htd, validIdx_of_arrGet _ _ _ hit⟩
        | false =>
          simp only [hc2, Bool.false_eq_true, if_false] at h
          cases h
          exact ⟨rfl, by simp [arrSet_length],
            validIdx_of_arrGet _ _ _ htd, validIdx_of_arrGet _ _ _ hit⟩

theorem dWTStart_ok (pg : JsInt) (c : Option String) (items : List TextItem)
    (idx offset : JsInt) (cls : Option String) (s s' : TLState)
    (h : divideAndWrapTextStart pg c items idx offset cls s = .ok s') :
    s'.highlightedTexts = s.highlightedTexts ++ [(pg, idx)]
    ∧ s'.textDivs.length = s.textDivs.length
    ∧ validIdx s.textDivs.length idx = true
    ∧ validIdx items.length idx = true := by
  unfold divideAndWrapTextStart at h
  cases htd : arrGet s.textDivs idx with
  | none =>
    rw [htd] at h
    cases h
  | some d =>
    rw [htd] at h
    have h2 := dWT_ok _ _ _ _ _ _ _ _ _ h
    refine ⟨h2.1, ?_, validIdx_of_arrGet _ _ _ htd, h2.2.2.2⟩
    rw [h2.2.1]
    exact arrSet_length _ _ _

theorem middleLoopGo_ok (pg : JsInt) (c : Option String) (cls : String) (e : Int) :
    ∀ (fuel : Nat) (i : Int) (s s' : TLState),
    middleLoopGo pg c cls e i fuel s = .ok s' →
    s'.textDivs.length = s.textDivs.length
    ∧ ∃ ents, s'.highlightedTexts = s.highlightedTexts ++ ents
      ∧ ∀ pi ∈ ents, pi.1 = pg ∧ ∃ k : Int, pi.2 = some k ∧ i ≤ k ∧ k < e
        ∧ validIdx s.textDivs.length pi.2 = true := by
  intro fuel
  induction fuel with
  | zero =>
    intro i s s' h
    rw [middleLoopGo] at h
    cases h
    refine ⟨rfl, [], by simp, ?_⟩
    intro pi hpi
    cases hpi
  | succ fuel ih =>
    intro i s s' h
    rw [middleLoopGo] at h
    by_cases hie : i < e
    · rw [if_pos hie] at h
      dsimp only [] at h
      cases htd : arrGet s.textDivs (some i) with
      | none =>
        rw [htd] at h
        cases h
      | some d =>
        rw [htd] at h
        dsimp only [] at h
        have h2 := ih (i + 1) _ s' h
        obtain ⟨hlen, ents', hents', hmem'⟩ := h2
        dsimp only [] at hlen hents' hmem'
        simp only [arrSet_length] at hlen hmem'
        refine ⟨hlen, (pg, some i) :: ents', ?_, ?_⟩
        · rw [hents']
          simp
        · intro pi hpi
          rcases List.mem_cons.mp hpi with rfl | hm
          · exact ⟨rfl, i, rfl, le_refl i, hie, validIdx_of_arrGet _ _ _ htd⟩
          · obtain ⟨hp1, k, hk, hik, hke, hvk⟩ := hmem' pi hm
            exact ⟨hp1, k, hk, by omega, hke, hvk⟩
    · rw [if_neg hie] at h
      cases h
      refine ⟨rfl, [], by simp, ?_⟩
      intro pi hpi
      cases hpi

theorem middleLoop_ok (pg : JsInt) (c : Option String) (cls : String)
    (b e : JsInt) (s s' : TLState)
    (h : middleLoop pg c cls b e s = .ok s') :
    s'.textDivs.length = s.textDivs.length
    ∧ ∃ ents, s'.highlightedTexts = s.highlightedTexts ++ ents
      ∧ ∀ pi ∈ ents, pi.1 = pg ∧ ∃ bI eI k : Int, b = some bI ∧ e = some eI
        ∧ pi.2 = some k ∧ bI < k ∧ k < eI
        ∧ validIdx s.textDivs.length pi.2 = true := by
  unfold middleLoop at h
  cases b with
  | none =>
    cases h
    refine ⟨rfl, [], by simp, ?_⟩
    intro pi hpi
    cases hpi
  | some bI =>
    cases e with
    | none =>
      cases h
      refine ⟨rfl, [], by simp, ?_⟩
      intro pi hpi
      cases hpi
    | some eI =>
      obtain ⟨hlen, ents, hents, hmem⟩ := middleLoopGo_ok pg c cls eI _ (bI + 1) s s' h
      refine ⟨hlen, ents, hents, ?_⟩
      intro pi hpi
      obtain ⟨hp1, k, hk, hik, hke, hvk⟩ := hmem pi hpi
      exact ⟨hp1, bI, eI, k, rfl, rfl, hk, by omega, hke, hvk⟩

theorem validIdx_elim (len : Nat) (k : Int) (h : validIdx len (some k) = true) :
    0 ≤ k ∧ k.toNat < len := by
  simpa [validIdx, Bool.and_eq_true, decide_eq_true_eq] using h

theorem validIdx_intro (len : Nat) (k : Int) (h1 : 0 ≤ k) (h2 : k.toNat < len) :
    validIdx len (some k) = true := by
  simp [validIdx, Bool.and_eq_true, decide_eq_true_eq, h1, h2]

theorem highlightTextCore_ok (pg b bo e eo : JsInt) (c : Option String)
    (items : List TextItem) (s s' : TLState)
    (h : highlightTextCore pg b bo e eo c items s = .ok s') :
    s'.textDivs.length = s.textDivs.length
    ∧ ∃ ents, s'.highlightedTexts = s.highlightedTexts ++ ents
      ∧ ∀ pi ∈ ents, pi.1 = pg
        ∧ validIdx s.textDivs.length pi.2 = true
        ∧ validIdx items.length pi.2 = true := by
  unfold highlightTextCore at h
  simp only [bind, Except.bind] at h
  cases h1 : divideAndWrapTextStart pg c items b bo none s with
  | error r =>
    rw [h1] at h
    cases h
  | ok s1 =>
    rw [h1] at h
    dsimp only [] at h
    have e1 := dWTStart_ok _ _ _ _ _ _ _ _ h1
    cases heq : jsEqNum b e with
    | true =>
      simp only [heq, reduceIte] at h
      cases h2 : divideAndWrapText pg c items b bo (some eo)
          (some ("mod-focused selected " ++ "pdf-plus-backlink")) s1 with
      | error r =>
        rw [h2] at h
        cases h
      | ok s2 =>
        rw [h2] at h
        dsimp only [] at h
        have e2 := dWT_ok _ _ _ _ _ _ _ _ _ h2
        have e3 := dWT_ok _ _ _ _ _ _ _ _ _ h
        have hsb : validIdx s.textDivs.length b = true := e1.2.2.1
        have hib : validIdx items.length b = true := e1.2.2.2
        have hse : validIdx s.textDivs.length e = true := by
          have hx := e3.2.2.1
          rwa [e2.2.1, e1.2.1] at hx
        have hie2 : validIdx items.length e = true := e3.2.2.2
        refine ⟨?_, [(pg, b), (pg, b), (pg, e)], ?_, ?_⟩
        · rw [e3.2.1, e2.2.1, e1.2.1]
        · rw [e3.1, e2.1, e1.1]
          simp
        · intro pi hpi
          rcases List.mem_cons.mp hpi with rfl | hpi
          · exact ⟨rfl, hsb, hib⟩
          rcases List.mem_cons.mp hpi with rfl | hpi
          · exact ⟨rfl, hsb, hib⟩
          rcases List.mem_cons.mp hpi with rfl | hpi
          · exact ⟨rfl, hse, hie2⟩
          cases hpi
    | false =>
      simp only [heq, Bool.false_eq_true, if_false] at h
      cases h2 : divideAndWrapText pg c items b bo none
          (some ("mod-focused begin selected " ++ "pdf-plus-backlink")) s1 with
      | error r =>
        rw [h2] at h
        cases h
      | ok s2 =>
        rw [h2] at h
        dsimp only [] at h
        cases h3 : middleLoop pg c "pdf-plus-backlink" b e s2 with
        | error r =>
          rw [h3] at h
          cases h
        | ok s3 =>
          rw [h3] at h
          dsimp only [] at h
          cases h4 : divideAndWrapTextStart pg c items e eo
              (some ("mod-focused endselected " ++ "pdf-plus-backlink")) s3 with
          | error r =>
            rw [h4] at h
            cases h
          | ok s4 =>
            rw [h4] at h
            dsimp only [] at h
            have e2 := dWT_ok _ _ _ _ _ _ _ _ _ h2
            obtain ⟨hlen3, entsMid, hmid, hmemMid⟩ :=
              middleLoop_ok _ _ _ _ _ _ _ h3
            have e4 := dWTStart_ok _ _ _ _ _ _ _ _ h4
            have e5 := dWT_ok _ _ _ _ _ _ _ _ _ h
            have hsb : validIdx s.textDivs.length b = true := e1.2.2.1
            have hib : validIdx items.length b = true := e1.2.2.2
            have hse : validIdx s.textDivs.length e = true := by
              have hx := e4.2.2.1
              rwa [hlen3, e2.2.1, e1.2.1] at hx
            have hie2 : validIdx items.length e = true := e4.2.2.2
            refine ⟨?_, [(pg, b), (pg, b)] ++ entsMid ++ [(pg, e), (pg, e)], ?_, ?_⟩
            · rw [e5.2.1, e4.2.1, hlen3, e2.2.1, e1.2.1]
            · rw [e5.1, e4.1, hmid, e2.1, e1.1]
              simp
            · intro pi hpi
              rcases List.mem_append.mp hpi with hpi | hpi
              · rcases List.mem_append.mp hpi with hpi | hpi
                · rcases List.mem_cons.mp hpi with rfl | hpi
                  · exact ⟨rfl, hsb, hib⟩
                  rcases List.mem_cons.mp hpi with rfl | hpi
                  · exact ⟨rfl, hsb, hib⟩
                  cases hpi
                · obtain ⟨hp1, bI, eI, k, hbI, heI, hk, hbk, hke, hvk⟩ := hmemMid pi hpi
                  subst hbI
                  subst heI
                  have hvk' : validIdx s.textDivs.length pi.2 = true := by
                    rwa [e2.2.1, e1.2.1] at hvk
                  refine ⟨hp1, hvk', ?_⟩
                  rw [hk]
                  have hbb := validIdx_elim _ _ hsb
                  have hee := validIdx_elim _ _ hie2
                  exact validIdx_intro _ _ (by omega) (by omega)
              · rcases List.mem_cons.mp hpi with rfl | hpi
                · exact ⟨rfl, hse, hie2⟩
                rcases List.mem_cons.mp hpi with rfl | hpi
                · exact ⟨rfl, hse, hie2⟩
                cases hpi

theorem highlightText_ok_valid (pg b bo e eo : JsInt) (c : Option String)
    (st st1 : HState)
    (h0 : st.highlightedTexts = [])
    (h : highlightText pg b bo e eo c st = .ok st1) :
    ∀ pi ∈ st1.highlightedTexts, entryOK st1 pi = true := by
  unfold highlightText at h
  cases hg : (jsLt pg (some 1) || jsGt pg (some st.viewer.pagesCount)) with
  | true =>
    simp only [hg, Bool.not_true, Bool.false_eq_true, if_false] at h
    cases h
    intro pi hpi
    rw [h0] at hpi
    cases hpi
  | false =>
    simp only [hg, Bool.not_false, reduceIte] at h
    cases hpv : st.viewer.pdfViewer with
    | none =>
      rw [hpv] at h
      cases h
      intro pi hpi
      rw [h0] at hpi
      cases hpi
    | some pages =>
      rw [hpv] at h
      dsimp only [] at h
      cases hpg : arrGet pages (jsSub pg (some 1)) with
      | none =>
        rw [hpg] at h
        cases h
        intro pi hpi
        rw [h0] at hpi
        cases hpi
      | some pv =>
        rw [hpg] at h
        dsimp only [] at h
        cases htl : pv.textLayer with
        | none =>
          rw [htl] at h
          cases h
          intro pi hpi
          rw [h0] at hpi
          cases hpi
        | some tl =>
          rw [htl] at h
          dsimp only [] at h
          cases hload : pv.loaded with
          | false =>
            simp only [hload, Bool.false_eq_true, if_false] at h
            cases h
            intro pi hpi
            rw [h0] at hpi
            cases hpi
          | true =>
            simp only [hload, reduceIte] at h
            cases hcore : highlightTextCore pg b bo e eo c tl.textContentItems
                ⟨tl.textDivs, st.highlightedTexts⟩ with
            | error r =>
              obtain ⟨s1, err⟩ := r
              rw [hcore] at h
              cases h
            | ok s1 =>
              rw [hcore] at h
              cases h
              obtain ⟨hlen, ents, hents, hmem⟩ :=
                highlightTextCore_ok _ _ _ _ _ _ _ _ _ hcore
              have hptl : pageTL (writeBackTL st pages pg pv tl s1) pg
                  = some { tl with textDivs := s1.textDivs } := by
                unfold pageTL writeBackTL
                simp only [arrGet_arrSet_self _ _ _ _ hpg]
              intro pi hpi
              have hpi' : pi ∈ ents := by
                have htexts : (writeBackTL st pages pg pv tl s1).highlightedTexts
                    = s1.highlightedTexts := rfl
                rw [htexts, hents, h0, List.nil_append] at hpi
                exact hpi
              obtain ⟨hp1, hv1, hv2⟩ := hmem pi hpi'
              unfold entryOK
              rw [hp1, hptl]
              dsimp only []
              rw [show ({ tl with textDivs := s1.textDivs } : TextLayer).textDivs.length
                  = s1.textDivs.length from rfl] at *
              rw [hlen]
              simp only [hv1, hv2, Bool.and_self]

/-- C6 (amended): for every set of highlights recorded by a `highlightText`
call that completed without throwing (starting from an empty record), a
subsequent `clearTextHighlight` succeeds, restores the text content of every
recorded text div to the original string from `textContentItems` at the same
index, and leaves `highlightedTexts` empty. -/
theorem highlight_clear_roundTrip (pg b bo e eo : JsInt) (c : Option String)
    (st st1 : HState)
    (h0 : st.highlightedTexts = [])
    (h : highlightText pg b bo e eo c st = .ok st1) :
    ∃ st2, clearTextHighlight st1 = .ok st2
      ∧ st2.highlightedTexts = []
      ∧ ∀ pi ∈ st1.highlightedTexts, entryRestored st2 pi = true := by
  have hv := highlightText_ok_valid pg b bo e eo c st st1 h0 h
  obtain ⟨st2, hok, htexts, hres⟩ := clearGo_ok_of_valid st1.highlightedTexts st1 hv
  exact ⟨st2, hok, htexts, fun pi hpi => hres pi (Or.inr hpi)⟩

def tlC6 : TextLayer :=
  { textDivs := [⟨1, [Chunk.plain "ab"], "", none⟩, ⟨1, [Chunk.plain "cd"], "", none⟩]
    textContentItems := [⟨"ab"⟩, ⟨"cd"⟩] }

def pvC6 : PageView :=
  { textLayer := some tlC6, annotationLayer := none, loaded := true }

/-- A loaded one-page viewer with a two-div text layer and no recorded
highlights. -/
def stC6 : HState :=
  { stBase with
    viewer := { isEmbed := false, pagesCount := 1, pdfViewer := some [pvC6] } }

/-- Checks the failure shape used by the C6 counterexample: `highlightText`
throws after recording highlight entries, and the subsequent
`clearTextHighlight` also throws, leaving `highlightedTexts` non-empty (so
nothing restored the recorded set and the list was not cleared). -/
def roundTripCheck (pg b bo e eo : JsInt) (c : Option String) (st : HState) : Bool :=
  match highlightText pg b bo e eo c st with
  | .ok _ => false
  | .error (st1, _) =>
    !st1.highlightedTexts.isEmpty &&
    (match clearTextHighlight st1 with
     | .ok _ => false
     | .error (st2, _) => !st2.highlightedTexts.isEmpty)

/-- C6 counterexample: `highlightText` with `endIndex = 5` on a two-div text
layer records entries for the begin div and two middle indices, then throws
on the out-of-range middle index; the recorded set is in `highlightedTexts`,
and the subsequent `clearTextHighlight` throws at the same stale index — it
neither restores every recorded div nor leaves `highlightedTexts` empty, so
the round trip fails for this recorded set. -/
theorem roundTrip_cex :
    roundTripCheck (some 1) (some 0) (some 0) (some 5) (some 1) none stC6 = true := by
  decide

/-- The state produced by the successful `highlightText` run used in the
round-trip witness. -/
def hlStC6 : HState :=
  match highlightText (some 1) (some 0) (some 0) (some 1) (some 1) none stC6 with
  | .ok st1 => st1
  | .error r => r.1

theorem highlight_clear_roundTrip_witness :
    highlightText (some 1) (some 0) (some 0) (some 1) (some 1) none stC6 = .ok hlStC6
    ∧ hlStC6.highlightedTexts ≠ []
    ∧ ∃ st2, clearTextHighlight hlStC6 = .ok st2
        ∧ st2.highlightedTexts = []
        ∧ ∀ pi ∈ hlStC6.highlightedTexts, entryRestored st2 pi = true :=
  ⟨by decide, by decide,
    highlight_clear_roundTrip (some 1) (some 0) (some 0) (some 1) (some 1) none
      stC6 hlStC6 rfl (by decide)⟩
